import Mathlib

/-!
# Verification of the Veilstar Brawl wagering engine and its ZK settlement gate

A shallow embedding, in Lean 4, of the parts of the repository that the
specification's testable properties talk about:

* `ZkBetting` — the spectator betting contract
  (`src/contracts/zk-betting/src/lib.rs`): pool lifecycle, commit/reveal,
  settlement (direct and ZK-gated), payout, refund and treasury sweep.
* `Groth16` — the proof verifier
  (`src/contracts/zk-groth16-verifier/src/lib.rs`): `verify_round_proof`
  with its fail-closed guards.
* `Brawl` — the per-round commit/verify gate of the match contract
  (`src/contracts/veilstar-brawl/src/lib.rs`): `submit_zk_commit` and
  `submit_zk_verification`.

Modelling conventions, shared by all three components:

* Soroban `Address`, `BytesN<32>` identifiers and hash values are embedded
  as `Nat`; byte strings (`Bytes`) as `List Nat`; `i128` money amounts as
  `Int`.  `i128` overflow is not modelled (stroop amounts in play are far
  below `2^127`); `u32` counters are `Nat`.  Rust `i128` division truncates
  toward zero while Lean's `Int` division is Euclidean; the only division
  in scope (`calc_fee`) is applied to non-negative operands, where the two
  agree.
* Host environment primitives are parameters of the embedded functions:
  the ledger timestamp `now`, the SHA-256 oracle `H` (applied to the
  side byte and the 32-byte salt exactly as the contract builds the
  preimage), the BN254 curve/pairing primitives (`Bn254Ops`), and the
  cross-contract verifier call `V` (the boolean answer of the verifier
  contract at a given address).
* Each contract function body is translated statement by statement into a
  function from the contract's storage `State` to
  `result × State × transfers`, where `transfers` records the token-client
  `transfer` calls the body performed.  `require_auth` /
  `require_auth_for_args` checks are enforced by the host against the
  transaction signatures and do not read or write contract storage; they
  are not part of the storage model.
* Soroban host semantics: a contract invocation that returns an error
  traps, and every storage change and token transfer performed by that
  invocation is rolled back (all-or-nothing).  The raw bodies below record
  writes made before an error return; the host-level wrapper `hostRun`
  applies the rollback, and the reachable-state relation `Trace` steps
  through the host-level semantics.
-/

namespace ZkBetting

/-- `PoolStatus` of `zk-betting`. -/
inductive PoolStatus where
  | Open
  | Locked
  | Settled
  | Refunded
deriving DecidableEq

/-- `BetSide` of `zk-betting`. -/
inductive BetSide where
  | Player1
  | Player2
deriving DecidableEq

/-- Contract error enum of `zk-betting`. -/
inductive Error where
  | PoolNotFound
  | PoolNotOpen
  | PoolNotLocked
  | PoolNotSettled
  | PoolAlreadySettled
  | PoolAlreadyLocked
  | AlreadyCommitted
  | BetNotFound
  | AlreadyRevealed
  | InvalidReveal
  | InvalidAmount
  | InvalidWinner
  | NoPayout
  | AlreadyClaimed
  | Unauthorized
  | ZkVerifierNotConfigured
  | ZkProofInvalid
  | BettingDeadlinePassed
  | NothingToSweep
  | SweepTooEarly
deriving DecidableEq

/-- Sentinel value for "no side set" (`SIDE_NONE` in the source). -/
def SIDE_NONE : Nat := 255

/-- `SIDE_P1`. -/
def SIDE_P1 : Nat := 0

/-- `SIDE_P2`. -/
def SIDE_P2 : Nat := 1

/-- Minimum bet: `MIN_BET_STROOPS = 1_000_000`. -/
def MIN_BET_STROOPS : Int := 1000000

/-- `SWEEP_INTERVAL_SECONDS`. -/
def SWEEP_INTERVAL_SECONDS : Nat := 86400

/-- The `BetPool` record. -/
structure BetPool where
  pool_id : Nat
  match_id : Nat
  status : PoolStatus
  player1_total : Int
  player2_total : Int
  total_pool : Int
  total_fees : Int
  bet_count : Nat
  reveal_count : Nat
  deadline_ts : Nat
  winner_side : Nat
deriving DecidableEq

/-- The `BetCommit` record. -/
structure BetCommit where
  bettor : Nat
  commitment : Nat
  amount : Int
  fee_paid : Int
  revealed : Bool
  side : Nat
  claimed : Bool
deriving DecidableEq

/-- The contract's storage: `Pool(u32)`, `Bet(u32, Address)`,
`PoolBettors(u32)` keyed records plus the instance-storage scalars. -/
structure State where
  pools : Nat → Option BetPool
  bets : Nat → Nat → Option BetCommit
  poolBettors : Nat → List Nat
  feeAccrued : Int
  lastSweepTs : Nat
  poolCounter : Nat
  zkVerifier : Option Nat
  zkVkId : Option Nat

/-- Storage right after `__constructor`. -/
def initState : State where
  pools := fun _ => none
  bets := fun _ _ => none
  poolBettors := fun _ => []
  feeAccrued := 0
  lastSweepTs := 0
  poolCounter := 0
  zkVerifier := none
  zkVkId := none

/-- Write the `Pool(pid)` storage entry. -/
def State.setPool (s : State) (pid : Nat) (pool : BetPool) : State :=
  { s with pools := fun q => if q = pid then some pool else s.pools q }

/-- Write the `Bet(pid, bettor)` storage entry. -/
def State.setBet (s : State) (pid b : Nat) (bet : BetCommit) : State :=
  { s with bets := fun q b2 => if q = pid ∧ b2 = b then some bet else s.bets q b2 }

/-- Write the `PoolBettors(pid)` storage entry. -/
def State.setBettors (s : State) (pid : Nat) (l : List Nat) : State :=
  { s with poolBettors := fun q => if q = pid then l else s.poolBettors q }

/-- Write the `PoolCounter` instance-storage entry. -/
def State.setCounter (s : State) (c : Nat) : State :=
  { s with poolCounter := c }

/-- Write the `FeeAccrued` instance-storage entry. -/
def State.setAccrued (s : State) (a : Int) : State :=
  { s with feeAccrued := a }

/-- One token-client `transfer` call, seen from the contract's escrow:
`pool` is the pool the enclosing operation is about (`none` for the
treasury sweep, which is not pool-scoped), `incoming` is true for a
bettor-to-contract deposit, and `amt` is the stroop amount. -/
structure Transfer where
  pool : Option Nat
  incoming : Bool
  amt : Int
deriving DecidableEq

/-- `calc_fee`: 1% (`FEE_BPS = 100`) rounded up,
`((amount * 100) + 9_999) / 10_000`. -/
def calc_fee (amount : Int) : Int :=
  ((amount * 100) + 9999) / 10000

/-- `create_pool` (admin-gated; auth not part of the storage model). -/
def create_pool (s : State) (match_id deadline_ts : Nat) :
    Except Error Nat × State × List Transfer :=
  let counter := s.poolCounter + 1
  let pool : BetPool :=
    { pool_id := counter, match_id := match_id, status := .Open
      player1_total := 0, player2_total := 0, total_pool := 0, total_fees := 0
      bet_count := 0, reveal_count := 0, deadline_ts := deadline_ts
      winner_side := SIDE_NONE }
  let s1 := (s.setPool counter pool).setBettors counter []
  (Except.ok counter, { s1 with poolCounter := counter }, [])

/-- `commit_bet`.  `now` is `env.ledger().timestamp()`; the
bettor-to-contract transfer of `amount + fee` is recorded in the transfer
list (the token client traps the whole call if the bettor cannot pay,
which the host rollback turns into a no-op). -/
def commit_bet (s : State) (now : Nat) (pool_id bettor commitment : Nat)
    (amount : Int) : Except Error Unit × State × List Transfer :=
  if amount < MIN_BET_STROOPS then (.error .InvalidAmount, s, [])
  else
    match s.pools pool_id with
    | none => (.error .PoolNotFound, s, [])
    | some pool =>
      if pool.status ≠ .Open then (.error .PoolNotOpen, s, [])
      else if pool.deadline_ts > 0 ∧ now > pool.deadline_ts then
        (.error .BettingDeadlinePassed, s, [])
      else if (s.bets pool_id bettor).isSome then (.error .AlreadyCommitted, s, [])
      else
        let fee := calc_fee amount
        let required := amount + fee
        let bet : BetCommit :=
          { bettor := bettor, commitment := commitment, amount := amount
            fee_paid := fee, revealed := false, side := SIDE_NONE, claimed := false }
        let s1 := s.setBet pool_id bettor bet
        let s2 := s1.setBettors pool_id (s.poolBettors pool_id ++ [bettor])
        let pool1 :=
          { pool with total_pool := pool.total_pool + amount
                      total_fees := pool.total_fees + fee
                      bet_count := pool.bet_count + 1 }
        (.ok (), s2.setPool pool_id pool1, [⟨some pool_id, true, required⟩])

/-- `lock_pool`. -/
def lock_pool (s : State) (pool_id : Nat) :
    Except Error Unit × State × List Transfer :=
  match s.pools pool_id with
  | none => (.error .PoolNotFound, s, [])
  | some pool =>
    if pool.status ≠ .Open then (.error .PoolAlreadyLocked, s, [])
    else (.ok (), s.setPool pool_id { pool with status := .Locked }, [])

/-- `reveal_bet_internal`.  `H side salt` is the SHA-256 oracle applied to
the one-byte side tag concatenated with the 32-byte salt, exactly the
preimage the contract hashes; both `reveal_bet` and `admin_reveal_bet`
call this body, differing only in which principal must sign. -/
def reveal_bet_internal (H : BetSide → Nat → Nat) (s : State)
    (pool_id bettor : Nat) (side : BetSide) (salt : Nat) :
    Except Error Unit × State × List Transfer :=
  match s.pools pool_id with
  | none => (.error .PoolNotFound, s, [])
  | some pool =>
    if pool.status ≠ .Locked then (.error .PoolNotLocked, s, [])
    else
      match s.bets pool_id bettor with
      | none => (.error .BetNotFound, s, [])
      | some bet =>
        if bet.revealed then (.error .AlreadyRevealed, s, [])
        else
          let computed := H side salt
          if computed ≠ bet.commitment then (.error .InvalidReveal, s, [])
          else
            let side_u32 := match side with
              | .Player1 => SIDE_P1
              | .Player2 => SIDE_P2
            let bet1 := { bet with revealed := true, side := side_u32 }
            let pool1 := match side with
              | .Player1 => { pool with
                  player1_total := pool.player1_total + bet.amount
                  reveal_count := pool.reveal_count + 1 }
              | .Player2 => { pool with
                  player2_total := pool.player2_total + bet.amount
                  reveal_count := pool.reveal_count + 1 }
            (.ok (), (s.setBet pool_id bettor bet1).setPool pool_id pool1, [])

/-- `settle_pool`. -/
def settle_pool (s : State) (pool_id : Nat) (winner : BetSide) :
    Except Error Unit × State × List Transfer :=
  match s.pools pool_id with
  | none => (.error .PoolNotFound, s, [])
  | some pool =>
    if pool.status = .Settled ∨ pool.status = .Refunded then
      (.error .PoolAlreadySettled, s, [])
    else
      let winner_u32 := match winner with
        | .Player1 => SIDE_P1
        | .Player2 => SIDE_P2
      let pool1 := { pool with status := .Settled, winner_side := winner_u32 }
      let s1 := s.setPool pool_id pool1
      (.ok (), { s1 with feeAccrued := s.feeAccrued + pool.total_fees }, [])

/-- `settle_pool_zk`.  `V verifier vk_id proof public_inputs` is the boolean
answer of the cross-contract `verify_round_proof` call on the verifier
contract installed at address `verifier`. -/
def settle_pool_zk (V : Nat → Nat → List Nat → List Nat → Bool) (s : State)
    (pool_id : Nat) (winner : BetSide) (vk_id : Nat) (proof : List Nat)
    (public_inputs : List Nat) : Except Error Unit × State × List Transfer :=
  match s.zkVerifier with
  | none => (.error .ZkVerifierNotConfigured, s, [])
  | some verifier_addr =>
    match s.zkVkId with
    | none => (.error .ZkVerifierNotConfigured, s, [])
    | some configured_vk_id =>
      if vk_id ≠ configured_vk_id then (.error .ZkProofInvalid, s, [])
      else if proof.length ≠ 256 ∨ public_inputs.length < 1 then
        (.error .ZkProofInvalid, s, [])
      else if ¬ V verifier_addr vk_id proof public_inputs then
        (.error .ZkProofInvalid, s, [])
      else settle_pool s pool_id winner

/-- `claim_payout_internal`: shared body of `claim_payout` and
`admin_claim_payout` (the two wrappers differ only in who must sign).
Note that the forfeiture and losing-side paths write `claimed := true`
and then return an error: the write is recorded here and discarded by the
host rollback. -/
def claim_payout_internal (s : State) (pool_id bettor : Nat) :
    Except Error Int × State × List Transfer :=
  match s.pools pool_id with
  | none => (.error .PoolNotFound, s, [])
  | some pool =>
    if pool.status ≠ .Settled then (.error .PoolNotSettled, s, [])
    else
      match s.bets pool_id bettor with
      | none => (.error .BetNotFound, s, [])
      | some bet =>
        if bet.claimed then (.error .AlreadyClaimed, s, [])
        else if pool.winner_side = SIDE_NONE then (.error .InvalidWinner, s, [])
        else if ¬ bet.revealed then
          (.error .NoPayout, s.setBet pool_id bettor { bet with claimed := true }, [])
        else if bet.side ≠ pool.winner_side then
          (.error .NoPayout, s.setBet pool_id bettor { bet with claimed := true }, [])
        else
          let payout := bet.amount * 2
          if payout ≤ 0 then (.error .NoPayout, s, [])
          else
            (.ok payout, s.setBet pool_id bettor { bet with claimed := true },
              [⟨some pool_id, false, payout⟩])

/-- One iteration of the `refund_pool` loop body over the bettors list:
refund `amount + fee` to each unclaimed bet and mark it claimed. -/
def refund_step (pool_id : Nat) (acc : State × List Transfer) (b : Nat) :
    State × List Transfer :=
  match acc.1.bets pool_id b with
  | some bet =>
    if ¬ bet.claimed then
      (acc.1.setBet pool_id b { bet with claimed := true },
        acc.2 ++ [⟨some pool_id, false, bet.amount + bet.fee_paid⟩])
    else acc
  | none => acc

/-- `refund_pool`. -/
def refund_pool (s : State) (pool_id : Nat) :
    Except Error Unit × State × List Transfer :=
  match s.pools pool_id with
  | none => (.error .PoolNotFound, s, [])
  | some pool =>
    if pool.status = .Settled ∨ pool.status = .Refunded then
      (.error .PoolAlreadySettled, s, [])
    else
      let r := (s.poolBettors pool_id).foldl (refund_step pool_id) (s, [])
      (.ok (), r.1.setPool pool_id { pool with status := .Refunded }, r.2)

/-- `sweep_treasury` (the `saturating_sub` of the source is `Nat`
subtraction). -/
def sweep_treasury (s : State) (now : Nat) :
    Except Error Int × State × List Transfer :=
  if s.lastSweepTs > 0 ∧ now - s.lastSweepTs < SWEEP_INTERVAL_SECONDS then
    (.error .SweepTooEarly, s, [])
  else if s.feeAccrued ≤ 0 then (.error .NothingToSweep, s, [])
  else
    (.ok s.feeAccrued, { s with feeAccrued := 0, lastSweepTs := now },
      [⟨none, false, s.feeAccrued⟩])

/-- `set_zk_verifier` (admin setter; writes the verifier address and key
id together). -/
def set_zk_verifier (s : State) (verifier vk_id : Nat) :
    Except Error Unit × State × List Transfer :=
  (.ok (), { s with zkVerifier := some verifier, zkVkId := some vk_id }, [])

/-- One invocation of a state-changing entrypoint of the betting contract,
with the environment inputs (timestamp) it was run under. -/
inductive Op where
  | createPool (match_id deadline_ts : Nat)
  | commitBet (now pool_id bettor commitment : Nat) (amount : Int)
  | lockPool (pool_id : Nat)
  | revealBet (pool_id bettor : Nat) (side : BetSide) (salt : Nat)
  | settlePool (pool_id : Nat) (winner : BetSide)
  | settlePoolZk (pool_id : Nat) (winner : BetSide) (vk_id : Nat)
      (proof : List Nat) (public_inputs : List Nat)
  | claimPayout (pool_id bettor : Nat)
  | refundPool (pool_id : Nat)
  | sweepTreasury (now : Nat)
  | setZkVerifier (verifier vk_id : Nat)

/-- Run the raw body of an entrypoint (return value erased).  `H` is the
SHA-256 oracle, `V` the cross-contract verifier oracle. -/
def rawExec (H : BetSide → Nat → Nat) (V : Nat → Nat → List Nat → List Nat → Bool)
    (op : Op) (s : State) : Except Error Unit × State × List Transfer :=
  match op with
  | .createPool m d =>
    let r := create_pool s m d
    (r.1.map fun _ => (), r.2)
  | .commitBet now p b c a => commit_bet s now p b c a
  | .lockPool p => lock_pool s p
  | .revealBet p b side salt => reveal_bet_internal H s p b side salt
  | .settlePool p w => settle_pool s p w
  | .settlePoolZk p w vk proof inputs => settle_pool_zk V s p w vk proof inputs
  | .claimPayout p b =>
    let r := claim_payout_internal s p b
    (r.1.map fun _ => (), r.2)
  | .refundPool p => refund_pool s p
  | .sweepTreasury now =>
    let r := sweep_treasury s now
    (r.1.map fun _ => (), r.2)
  | .setZkVerifier v vk => set_zk_verifier s v vk

/-- Soroban host semantics: an invocation that returns an error traps and
the host rolls back every storage change and transfer it performed. -/
def hostRun {A : Type} (r : Except Error A × State × List Transfer) (s : State) :
    Except Error A × State × List Transfer :=
  match r.1 with
  | .error e => (.error e, s, [])
  | .ok a => (.ok a, r.2)

/-- Host-level execution of one entrypoint invocation. -/
def hostExec (H : BetSide → Nat → Nat) (V : Nat → Nat → List Nat → List Nat → Bool)
    (op : Op) (s : State) : Except Error Unit × State × List Transfer :=
  hostRun (rawExec H V op s) s

/-- The state after a host-level invocation. -/
def hostState (H : BetSide → Nat → Nat) (V : Nat → Nat → List Nat → List Nat → Bool)
    (op : Op) (s : State) : State :=
  (hostExec H V op s).2.1

/-- The transfers actually performed by a host-level invocation (none when
it errors). -/
def hostTransfers (H : BetSide → Nat → Nat)
    (V : Nat → Nat → List Nat → List Nat → Bool) (op : Op) (s : State) :
    List Transfer :=
  (hostExec H V op s).2.2

/-- Stroops moved into escrow for pool `p` by a list of transfers. -/
def inflowTo (p : Nat) (ts : List Transfer) : Int :=
  (ts.map fun t => if t.pool = some p ∧ t.incoming = true then t.amt else 0).sum

/-- Stroops moved out of escrow for pool `p` by a list of transfers. -/
def outflowTo (p : Nat) (ts : List Transfer) : Int :=
  (ts.map fun t => if t.pool = some p ∧ t.incoming = false then t.amt else 0).sum

/-- Reachable contract states, together with cumulative per-pool escrow
inflow and outflow ledgers: starting from the constructor state, any
sequence of host-level entrypoint invocations with any arguments. -/
inductive Trace (H : BetSide → Nat → Nat)
    (V : Nat → Nat → List Nat → List Nat → Bool) :
    State → (Nat → Int) → (Nat → Int) → Prop where
  | init : Trace H V initState (fun _ => 0) (fun _ => 0)
  | step (s : State) (inA outA : Nat → Int) (op : Op) :
      Trace H V s inA outA →
      Trace H V (hostState H V op s)
        (fun p => inA p + inflowTo p (hostTransfers H V op s))
        (fun p => outA p + outflowTo p (hostTransfers H V op s))

/-- The value `f` of the bet record of `(p, b)`, or `0` when there is no
such record. -/
def betVal (s : State) (p : Nat) (f : BetCommit → Int) (b : Nat) : Int :=
  match s.bets p b with
  | some bet => f bet
  | none => 0

/-- Sum of `f` over the bet records of pool `p`, enumerated by the pool's
bettors list. -/
def betsSum (s : State) (p : Nat) (f : BetCommit → Int) : Int :=
  ((s.poolBettors p).map (betVal s p f)).sum

/-- Run a list of host-level invocations in order. -/
def runOps (H : BetSide → Nat → Nat) (V : Nat → Nat → List Nat → List Nat → Bool) :
    List Op → State → State
  | [], s => s
  | op :: rest, s => runOps H V rest (hostState H V op s)

/-- Cumulative per-pool inflow ledger after a list of invocations. -/
def runIn (H : BetSide → Nat → Nat) (V : Nat → Nat → List Nat → List Nat → Bool) :
    List Op → State → (Nat → Int) → (Nat → Int)
  | [], _, acc => acc
  | op :: rest, s, acc =>
    runIn H V rest (hostState H V op s)
      (fun p => acc p + inflowTo p (hostTransfers H V op s))

/-- Cumulative per-pool outflow ledger after a list of invocations. -/
def runOut (H : BetSide → Nat → Nat) (V : Nat → Nat → List Nat → List Nat → Bool) :
    List Op → State → (Nat → Int) → (Nat → Int)
  | [], _, acc => acc
  | op :: rest, s, acc =>
    runOut H V rest (hostState H V op s)
      (fun p => acc p + outflowTo p (hostTransfers H V op s))

/-- A concrete SHA-256 stand-in used to evaluate the model on closed
inputs: injective on `(side, salt)` pairs, as collision resistance
postulates for the real hash. -/
def H0 : BetSide → Nat → Nat := fun side salt =>
  2 * salt + (match side with | .Player1 => 0 | .Player2 => 1)

/-- A concrete verifier oracle that accepts everything (the
`MockVerifierAcceptContract` of the repository's test suite). -/
def V0 : Nat → Nat → List Nat → List Nat → Bool := fun _ _ _ _ => true

/-- Pool status order: `statusStep a b` holds when a pool's status may move
from `a` to `b` in one invocation (stay put, or move strictly forward from
`Open` or `Locked`; `Settled` and `Refunded` are terminal). -/
def statusStep (a b : PoolStatus) : Bool :=
  match a, b with
  | .Open, .Open | .Open, .Locked | .Open, .Settled | .Open, .Refunded => true
  | .Locked, .Locked | .Locked, .Settled | .Locked, .Refunded => true
  | .Settled, .Settled => true
  | .Refunded, .Refunded => true
  | _, _ => false

/-- Scenario: verifier configured, one pool created for match `1` and
locked; no binding between public inputs and the pool is ever recorded. -/
def zkSettleOps : List Op := [.setZkVerifier 5 7, .createPool 1 0, .lockPool 1]

/-- The state reached by `zkSettleOps`. -/
def zkSettleState : State := runOps H0 V0 zkSettleOps initState

/-- Scenario: one pool, one bettor (address `7`) who commits `1_000_000`
stroops and never reveals; the pool is locked and settled for Player1. -/
def forfeitOps : List Op :=
  [.createPool 1 0, .commitBet 0 1 7 99 1000000, .lockPool 1,
   .settlePool 1 .Player1]

/-- The state reached by `forfeitOps`. -/
def forfeitState : State := runOps H0 V0 forfeitOps initState

/-- Scenario: one pool, one bettor (address `7`) who commits `1_000_000`
stroops on Player1 (salt `42`), reveals, the pool settles for Player1 and
the bettor claims the fixed `2×` payout. -/
def winOps : List Op :=
  [.createPool 9 0, .commitBet 0 1 7 (H0 .Player1 42) 1000000, .lockPool 1,
   .revealBet 1 7 .Player1 42, .settlePool 1 .Player1, .claimPayout 1 7]

/-- The state reached by `winOps`. -/
def winState : State := runOps H0 V0 winOps initState

/-- The inflow ledger of `winOps`. -/
def winIn : Nat → Int := runIn H0 V0 winOps initState (fun _ => 0)

/-- The outflow ledger of `winOps`. -/
def winOut : Nat → Int := runOut H0 V0 winOps initState (fun _ => 0)

/-- Scenario: a freshly created pool `1` (status Open), nothing else. -/
def openPoolState : State := runOps H0 V0 [.createPool 3 0] initState

/-- The pool record of `winState`: settled for Player1 with a single
revealed winning bet of `1_000_000` (fee `10_000`). -/
def winPool : BetPool where
  pool_id := 1
  match_id := 9
  status := .Settled
  player1_total := 1000000
  player2_total := 0
  total_pool := 1000000
  total_fees := 10000
  bet_count := 1
  reveal_count := 1
  deadline_ts := 0
  winner_side := 0

/-- The claim-status invariant tied to escrow accounting: everything about
a reachable state (with its cumulative per-pool inflow and outflow
ledgers) that the conservation and bookkeeping proofs need. -/
structure Inv (s : State) (inA outA : Nat → Int) : Prop where
  counter_bound : ∀ p, s.poolCounter < p → s.pools p = none
  bettors_none : ∀ p, s.pools p = none → s.poolBettors p = []
  bets_none : ∀ p b, s.pools p = none → s.bets p b = none
  in_none : ∀ p, s.pools p = none → inA p = 0
  out_none : ∀ p, s.pools p = none → outA p = 0
  dom : ∀ p b, (s.bets p b).isSome = true ↔ b ∈ s.poolBettors p
  nodup : ∀ p, (s.poolBettors p).Nodup
  bet_wf : ∀ p b bet, s.bets p b = some bet →
    MIN_BET_STROOPS ≤ bet.amount ∧ bet.fee_paid = calc_fee bet.amount
  total_pool_eq : ∀ p pool, s.pools p = some pool →
    pool.total_pool = betsSum s p (fun bet => bet.amount)
  total_fees_eq : ∀ p pool, s.pools p = some pool →
    pool.total_fees = betsSum s p (fun bet => bet.fee_paid)
  p1_eq : ∀ p pool, s.pools p = some pool →
    pool.player1_total =
      betsSum s p (fun bet => if bet.revealed = true ∧ bet.side = SIDE_P1 then bet.amount else 0)
  p2_eq : ∀ p pool, s.pools p = some pool →
    pool.player2_total =
      betsSum s p (fun bet => if bet.revealed = true ∧ bet.side = SIDE_P2 then bet.amount else 0)
  unclaimed : ∀ p pool, s.pools p = some pool →
    pool.status = .Open ∨ pool.status = .Locked →
    ∀ b bet, s.bets p b = some bet → bet.claimed = false
  in_eq : ∀ p pool, s.pools p = some pool → inA p = pool.total_pool + pool.total_fees
  out_not_refunded : ∀ p pool, s.pools p = some pool → pool.status ≠ .Refunded →
    outA p = 2 * betsSum s p (fun bet => if bet.claimed = true then bet.amount else 0)
  out_refunded : ∀ p pool, s.pools p = some pool → pool.status = .Refunded →
    outA p = pool.total_pool + pool.total_fees ∧
      ∀ b bet, s.bets p b = some bet → bet.claimed = true

/-- Scenario: pool `1` for match `1`, locked, holding one unrevealed
commitment by bettor `7` for Player1 under salt `42`. -/
def revealDemoState : State :=
  runOps H0 V0
    [.createPool 1 0, .commitBet 0 1 7 (H0 .Player1 42) 1000000, .lockPool 1]
    initState

/-- The pool record of `revealDemoState`. -/
def revealDemoPool : BetPool where
  pool_id := 1
  match_id := 1
  status := .Locked
  player1_total := 0
  player2_total := 0
  total_pool := 1000000
  total_fees := 10000
  bet_count := 1
  reveal_count := 0
  deadline_ts := 0
  winner_side := 255

/-- The bet record of `revealDemoState`. -/
def revealDemoBet : BetCommit where
  bettor := 7
  commitment := 84
  amount := 1000000
  fee_paid := 10000
  revealed := false
  side := 255
  claimed := false

end ZkBetting


namespace Groth16

/-- The BN254 host primitives (`env.crypto().bn254()` and the point/scalar
decoders) used by `verify_round_proof`, as an abstract operation record;
group elements and scalars are represented opaquely as `Nat`. -/
structure Bn254Ops where
  g1FromBytes : List Nat → Nat
  g2FromBytes : List Nat → Nat
  frFromBytes : Nat → Nat
  g1Neg : Nat → Nat
  g1Mul : Nat → Nat → Nat
  g1Add : Nat → Nat → Nat
  pairingCheck : List Nat → List Nat → Bool

/-- `PROOF_GROTH16_BYTES_LEN`. -/
def PROOF_GROTH16_BYTES_LEN : Nat := 256

/-- The `Groth16VerificationKey` record: fixed curve constants (as their
byte encodings) plus the input-coefficient list. -/
structure Groth16VerificationKey where
  alpha_g1 : List Nat
  beta_g2 : List Nat
  gamma_g2 : List Nat
  delta_g2 : List Nat
  ic : List (List Nat)

/-- `proof_g1_slice`: decode `proof[start..fin]` as a G1 point; `none`
models the `None` early returns of the source. -/
def proof_g1_slice (ops : Bn254Ops) (proof : List Nat) (start fin : Nat) :
    Option Nat :=
  if fin ≤ start ∨ fin > proof.length then none
  else
    let bytes := (proof.drop start).take (fin - start)
    if bytes.length ≠ 64 then none
    else some (ops.g1FromBytes bytes)

/-- `proof_g2_slice`. -/
def proof_g2_slice (ops : Bn254Ops) (proof : List Nat) (start fin : Nat) :
    Option Nat :=
  if fin ≤ start ∨ fin > proof.length then none
  else
    let bytes := (proof.drop start).take (fin - start)
    if bytes.length ≠ 64 + 64 then none
    else some (ops.g2FromBytes bytes)

/-- The `vk_x` accumulation loop
(`for idx in 0..public_inputs.len() { ... ic.get(idx + 1).unwrap() ... }`);
a `none` result models the panic of a failing `.unwrap()`. -/
def vk_x_loop (ops : Bn254Ops) (ic : List (List Nat)) :
    List Nat → Nat → Nat → Option Nat
  | [], _, acc => some acc
  | input :: rest, idx, acc =>
    match ic.get? (idx + 1) with
    | none => none
    | some icBytes =>
      let input_scalar := ops.frFromBytes input
      let ic_point := ops.g1FromBytes icBytes
      let term := ops.g1Mul ic_point input_scalar
      vk_x_loop ops ic rest (idx + 1) (ops.g1Add acc term)

/-- `verify_round_proof` of the `zk-groth16-verifier` contract.  `vks` is
the `VerificationKey(vk_id)` instance storage; `some b` is a normal boolean
return and `none` models a panic (a failing `.unwrap()`).  The
`saturating_add` on the `u32` length is mirrored with a `min` against
`u32::MAX`. -/
def verify_round_proof (ops : Bn254Ops) (vks : Nat → Option Groth16VerificationKey)
    (vk_id : Nat) (proof : List Nat) (public_inputs : List Nat) : Option Bool :=
  match vks vk_id with
  | none => some false
  | some vk =>
    if proof.length ≠ PROOF_GROTH16_BYTES_LEN then some false
    else
      let expected_ic_len := min (public_inputs.length + 1) (2 ^ 32 - 1)
      if vk.ic.length ≠ expected_ic_len then some false
      else
        match proof_g1_slice ops proof 0 64 with
        | none => some false
        | some proof_a =>
          match proof_g2_slice ops proof 64 192 with
          | none => some false
          | some proof_b =>
            match proof_g1_slice ops proof 192 256 with
            | none => some false
            | some proof_c =>
              let alpha_g1 := ops.g1FromBytes vk.alpha_g1
              let beta_g2 := ops.g2FromBytes vk.beta_g2
              let gamma_g2 := ops.g2FromBytes vk.gamma_g2
              let delta_g2 := ops.g2FromBytes vk.delta_g2
              match vk.ic.get? 0 with
              | none => none
              | some ic0 =>
                match vk_x_loop ops vk.ic public_inputs 0 (ops.g1FromBytes ic0) with
                | none => none
                | some vk_x =>
                  some (ops.pairingCheck
                    [ops.g1Neg proof_a, alpha_g1, vk_x, proof_c]
                    [proof_b, beta_g2, gamma_g2, delta_g2])

end Groth16

namespace Brawl

/-- Contract error enum of `veilstar-brawl`. -/
inductive Error where
  | MatchNotFound
  | NotPlayer
  | MatchAlreadyEnded
  | MatchNotInProgress
  | InsufficientBalance
  | NothingToSweep
  | InvalidStake
  | StakeNotConfigured
  | StakeAlreadyPaid
  | StakeNotPaid
  | SweepTooEarly
  | StakeDepositExpired
  | DeadlineNotReached
  | MatchCancelled
  | InvalidZkCommitment
  | ZkCommitAlreadySubmitted
  | ZkCommitRequired
  | InvalidZkVerifier
  | ZkCommitNotFound
  | ZkVerificationAlreadySubmitted
  | ZkProofInvalid
  | ZkVerifierNotConfigured
  | ZkMatchOutcomeRequired
  | InvalidWinnerClaim
deriving DecidableEq

/-- The `Match` record of `veilstar-brawl`. -/
structure Match where
  player1 : Nat
  player2 : Nat
  player1_points : Int
  player2_points : Int
  player1_moves : Nat
  player2_moves : Nat
  total_xlm_collected : Int
  stake_amount_stroops : Int
  stake_fee_bps : Nat
  stake_deadline_ts : Nat
  player1_stake_paid : Bool
  player2_stake_paid : Bool
  fee_accrued_stroops : Int
  player1_zk_commits : Nat
  player2_zk_commits : Nat
  player1_zk_verified : Nat
  player2_zk_verified : Nat
  is_cancelled : Bool
  winner : Option Nat
deriving DecidableEq

/-- The `ZkVerificationRecord` stored per verified slot. -/
structure ZkVerificationRecord where
  verifier_contract : Nat
  commitment : Nat
  vk_id : Nat
deriving DecidableEq

/-- The per-slot key of the round gate:
`(session_id, match_salt, round, turn, is_p1)`. -/
structure SlotKey where
  session : Nat
  salt : Nat
  round : Nat
  turn : Nat
  is_p1 : Bool
deriving DecidableEq

/-- The storage of `veilstar-brawl` that the round gate touches:
`Match(u32)`, `MatchSalt(u32)`, `ZkCommit(...)`, `ZkVerified(...)` keyed
records plus the verifier configuration.  `zkVerifierVkId` is stored as a
32-byte value initialised to all zeroes by the constructor; the all-zero
value (embedded as `0`) means "no global key id configured". -/
structure BrawlState where
  matchesOf : Nat → Option Match
  matchSalt : Nat → Option Nat
  zkCommits : SlotKey → Option Nat
  zkVerified : SlotKey → Option ZkVerificationRecord
  zkVerifierContract : Option Nat
  zkVerifierVkId : Nat

/-- Write the `Match(session)` storage entry. -/
def BrawlState.setMatch (s : BrawlState) (session : Nat) (m : Match) : BrawlState :=
  { s with matchesOf := fun q => if q = session then some m else s.matchesOf q }

/-- Write a `ZkCommit` slot. -/
def BrawlState.setCommit (s : BrawlState) (k : SlotKey) (c : Nat) : BrawlState :=
  { s with zkCommits := fun q => if q = k then some c else s.zkCommits q }

/-- Write a `ZkVerified` slot. -/
def BrawlState.setVerified (s : BrawlState) (k : SlotKey)
    (r : ZkVerificationRecord) : BrawlState :=
  { s with zkVerified := fun q => if q = k then some r else s.zkVerified q }

/-- `submit_zk_commit`.  (`player.require_auth()` is host-enforced and not
part of the storage model.) -/
def submit_zk_commit (s : BrawlState) (session_id player round turn commitment : Nat) :
    Except Error Unit × BrawlState :=
  if round = 0 ∨ turn = 0 then (.error .InvalidZkCommitment, s)
  else
    match s.matchesOf session_id with
    | none => (.error .MatchNotFound, s)
    | some m =>
      if m.winner.isSome then (.error .MatchAlreadyEnded, s)
      else if m.is_cancelled then (.error .MatchCancelled, s)
      else
        let is_p1 : Bool := player == m.player1
        let is_p2 : Bool := player == m.player2
        if !is_p1 && !is_p2 then (.error .NotPlayer, s)
        else
          match s.matchSalt session_id with
          | none => (.error .MatchNotFound, s)
          | some match_salt =>
            let zk_key : SlotKey := ⟨session_id, match_salt, round, turn, is_p1⟩
            let had_existing_commit := (s.zkCommits zk_key).isSome
            let s1 := s.setCommit zk_key commitment
            let m1 :=
              if !had_existing_commit then
                if is_p1 then { m with player1_zk_commits := m.player1_zk_commits + 1 }
                else if is_p2 then { m with player2_zk_commits := m.player2_zk_commits + 1 }
                else m
              else m
            (.ok (), s1.setMatch session_id m1)

/-- `submit_zk_verification`.  `V verifier vk_id proof public_inputs` is
the boolean answer of the cross-contract `verify_round_proof` call. -/
def submit_zk_verification (V : Nat → Nat → List Nat → List Nat → Bool)
    (s : BrawlState) (session_id player round turn commitment vk_id : Nat)
    (proof : List Nat) (public_inputs : List Nat) :
    Except Error Unit × BrawlState :=
  if round = 0 ∨ turn = 0 then (.error .InvalidZkCommitment, s)
  else if proof.length = 0 then (.error .ZkProofInvalid, s)
  else
    match s.matchesOf session_id with
    | none => (.error .MatchNotFound, s)
    | some m =>
      if m.winner.isSome then (.error .MatchAlreadyEnded, s)
      else if m.is_cancelled then (.error .MatchCancelled, s)
      else
        let is_p1 : Bool := player == m.player1
        let is_p2 : Bool := player == m.player2
        if !is_p1 && !is_p2 then (.error .NotPlayer, s)
        else
          match s.matchSalt session_id with
          | none => (.error .MatchNotFound, s)
          | some match_salt =>
            let commit_key : SlotKey := ⟨session_id, match_salt, round, turn, is_p1⟩
            match s.zkCommits commit_key with
            | none => (.error .ZkCommitNotFound, s)
            | some stored_commitment =>
              if stored_commitment ≠ commitment then (.error .InvalidZkCommitment, s)
              else
                let verify_key : SlotKey := ⟨session_id, match_salt, round, turn, is_p1⟩
                let had_existing_verification := (s.zkVerified verify_key).isSome
                let configured_vk_id := s.zkVerifierVkId
                if configured_vk_id ≠ 0 ∧ vk_id ≠ configured_vk_id then
                  (.error .ZkProofInvalid, s)
                else if proof.length ≠ 256 ∨ public_inputs.isEmpty then
                  (.error .ZkProofInvalid, s)
                else
                  match s.zkVerifierContract with
                  | none => (.error .ZkVerifierNotConfigured, s)
                  | some verifier_contract =>
                    if ¬ V verifier_contract vk_id proof public_inputs then
                      (.error .ZkProofInvalid, s)
                    else
                      let record : ZkVerificationRecord :=
                        ⟨verifier_contract, commitment, vk_id⟩
                      let s1 := s.setVerified verify_key record
                      let m1 :=
                        if !had_existing_verification then
                          if is_p1 then
                            { m with player1_zk_verified := m.player1_zk_verified + 1 }
                          else if is_p2 then
                            { m with player2_zk_verified := m.player2_zk_verified + 1 }
                          else m
                        else m
                      (.ok (), s1.setMatch session_id m1)

end Brawl

namespace Groth16

/-- Trivial BN254 operation stand-ins, for evaluating the model at closed
inputs. -/
def ops0 : Bn254Ops where
  g1FromBytes := fun _ => 0
  g2FromBytes := fun _ => 0
  frFromBytes := fun _ => 0
  g1Neg := fun x => x
  g1Mul := fun x _ => x
  g1Add := fun x _ => x
  pairingCheck := fun _ _ => true

/-- A key store with no installed verification key. -/
def vks0 : Nat → Option Groth16VerificationKey := fun _ => none

end Groth16

namespace Brawl

/-- A concrete match between players `1` and `2`, in progress. -/
def exMatch : Match where
  player1 := 1
  player2 := 2
  player1_points := 0
  player2_points := 0
  player1_moves := 0
  player2_moves := 0
  total_xlm_collected := 0
  stake_amount_stroops := 0
  stake_fee_bps := 10
  stake_deadline_ts := 0
  player1_stake_paid := false
  player2_stake_paid := false
  fee_accrued_stroops := 0
  player1_zk_commits := 0
  player2_zk_commits := 0
  player1_zk_verified := 0
  player2_zk_verified := 0
  is_cancelled := false
  winner := none

/-- `exMatch` after one zk commit by player 1. -/
def exMatch1 : Match := { exMatch with player1_zk_commits := 1 }

/-- A state holding `exMatch` under session `100` with match salt `77`, a
configured verifier contract at address `9` and no global key id. -/
def exBrawlState : BrawlState where
  matchesOf := fun q => if q = 100 then some exMatch else none
  matchSalt := fun q => if q = 100 then some 77 else none
  zkCommits := fun _ => none
  zkVerified := fun _ => none
  zkVerifierContract := some 9
  zkVerifierVkId := 0

/-- `exBrawlState` after player `1` submitted commitment `10` for round 1,
turn 1. -/
def exBrawlState1 : BrawlState :=
  (submit_zk_commit exBrawlState 100 1 1 1 10).2

/-- A well-formed 256-byte proof stand-in. -/
def exProof : List Nat := List.replicate 256 3

/-- `exBrawlState1` after player `1` additionally submitted a verification
for the same slot (key id `4`, accepted by the verifier oracle). -/
def exBrawlState2 : BrawlState :=
  (submit_zk_verification ZkBetting.V0 exBrawlState1 100 1 1 1 10 4 exProof [6]).2

/-- `exMatch1` after one zk verification by player 1. -/
def exMatch2 : Match := { exMatch1 with player1_zk_verified := 1 }

end Brawl

deriving instance DecidableEq for Except

open Brawl in
/-- C10: `submit_zk_commit` and `submit_zk_verification` reject every call
with `round == 0` or `turn == 0` with the `InvalidZkCommitment` error,
before any state change: round and turn numbering is 1-based at the public
interface. -/
theorem round_gate_rejects_zero_round_turn
    (V : Nat → Nat → List Nat → List Nat → Bool) (s : BrawlState)
    (session player round turn commitment vk_id : Nat)
    (proof public_inputs : List Nat)
    (h : round = 0 ∨ turn = 0) :
    submit_zk_commit s session player round turn commitment
      = (.error .InvalidZkCommitment, s)
    ∧ submit_zk_verification V s session player round turn commitment vk_id
        proof public_inputs = (.error .InvalidZkCommitment, s) := by
  refine ⟨?_, ?_⟩ <;>
    simp only [submit_zk_commit, submit_zk_verification, if_pos h]

open Brawl in
/-- Witness for C10 at a concrete call with `round = 0`. -/
theorem round_gate_rejects_zero_round_turn_witness :
    ((0 : Nat) = 0 ∨ (1 : Nat) = 0)
    ∧ submit_zk_commit exBrawlState 100 1 0 1 10
        = (.error .InvalidZkCommitment, exBrawlState)
    ∧ submit_zk_verification ZkBetting.V0 exBrawlState 100 1 0 1 10 4
        exProof [6] = (.error .InvalidZkCommitment, exBrawlState) :=
  ⟨Or.inl rfl,
    (round_gate_rejects_zero_round_turn ZkBetting.V0 exBrawlState
      100 1 0 1 10 4 exProof [6] (Or.inl rfl)).1,
    (round_gate_rejects_zero_round_turn ZkBetting.V0 exBrawlState
      100 1 0 1 10 4 exProof [6] (Or.inl rfl)).2⟩

open Brawl in
/-- C9 counterexample: the per-slot records are not write-once.  After
player 1 commits value `10` for slot (session 100, round 1, turn 1), a
second `submit_zk_commit` with the different value `20` is accepted and
the stored record becomes `20`: it does not remain as first written, and
the second call is not a no-op. -/
theorem round_gate_second_commit_overwrites :
    exBrawlState1.zkCommits ⟨100, 77, 1, 1, true⟩ = some 10
    ∧ (submit_zk_commit exBrawlState1 100 1 1 1 20).1 = .ok ()
    ∧ (submit_zk_commit exBrawlState1 100 1 1 1 20).2.zkCommits
        ⟨100, 77, 1, 1, true⟩ = some 20
    ∧ ((10 : Nat) ≠ 20) := by
  refine ⟨by decide, by decide, by decide, by decide⟩

open Brawl in
/-- C9 amended: a second submission for an already-written slot whose
guards pass is accepted without error and the per-player commit/verified
counters are not incremented beyond their first increment (the match
record is left exactly as it was); however the stored per-slot record is
overwritten with the newly supplied value rather than kept as first
written, so only a resubmission with the identical value is a strict
no-op. -/
theorem round_gate_resubmission_not_double_counted
    (V : Nat → Nat → List Nat → List Nat → Bool) (s : BrawlState)
    (session player round turn : Nat) (m : Match) (salt : Nat)
    (hm : s.matchesOf session = some m) (hw : m.winner = none)
    (hcan : m.is_cancelled = false)
    (hr : round ≠ 0) (ht : turn ≠ 0)
    (hs : s.matchSalt session = some salt) :
    (∀ c2, (player = m.player1 ∨ player = m.player2) →
      (s.zkCommits ⟨session, salt, round, turn, player == m.player1⟩).isSome = true →
      submit_zk_commit s session player round turn c2 =
        (.ok (), (s.setCommit ⟨session, salt, round, turn, player == m.player1⟩ c2).setMatch
          session m))
    ∧ (∀ c vk_id proof inputs vc, (player = m.player1 ∨ player = m.player2) →
      s.zkCommits ⟨session, salt, round, turn, player == m.player1⟩ = some c →
      (s.zkVerified ⟨session, salt, round, turn, player == m.player1⟩).isSome = true →
      (s.zkVerifierVkId = 0 ∨ vk_id = s.zkVerifierVkId) →
      proof.length = 256 → inputs ≠ [] →
      s.zkVerifierContract = some vc →
      V vc vk_id proof inputs = true →
      submit_zk_verification V s session player round turn c vk_id proof inputs =
        (.ok (), (s.setVerified ⟨session, salt, round, turn, player == m.player1⟩
          ⟨vc, c, vk_id⟩).setMatch session m)) := by
  have hrt : ¬(round = 0 ∨ turn = 0) := by
    rintro (h | h)
    · exact hr h
    · exact ht h
  constructor
  · intro c2 hp hprev
    unfold submit_zk_commit
    rw [if_neg hrt]
    rcases hp with hp1 | hp2
    · subst hp1
      simp only [beq_self_eq_true] at hprev ⊢
      obtain ⟨c1, hc1⟩ := Option.isSome_iff_exists.mp hprev
      simp [hm, hw, hcan, hs, hc1]
    · simp only [hm, hw, hcan, hs]
      have h2 : (player == m.player2) = true := by simp [hp2]
      simp [h2, hprev]
  · intro c vk_id proof inputs vc hp hcom hprev hvk hplen hin hvc hV
    have hin2 : inputs.isEmpty = false := by
      cases inputs with
      | nil => exact absurd rfl hin
      | cons a t => rfl
    have hvkcond : ¬(s.zkVerifierVkId ≠ 0 ∧ vk_id ≠ s.zkVerifierVkId) := by
      rintro ⟨hne0, hnee⟩
      rcases hvk with h0 | he
      · exact hne0 h0
      · exact hnee he
    unfold submit_zk_verification
    rw [if_neg hrt]
    rcases hp with hp1 | hp2
    · subst hp1
      simp only [beq_self_eq_true] at hcom hprev ⊢
      obtain ⟨r1, hr1⟩ := Option.isSome_iff_exists.mp hprev
      simp [hm, hw, hcan, hs, hplen, hcom, hr1, hvkcond, hin2, hvc, hV]
    · have h2 : (player == m.player2) = true := by simp [hp2]
      simp only [hm, hw, hcan, hs, h2]
      simp [hplen, hcom, hprev, hvkcond, hin2, hvc, hV, h2]

set_option maxRecDepth 8000 in
open Brawl in
/-- Witness for the amended C9 at concrete second submissions. -/
theorem round_gate_resubmission_not_double_counted_witness :
    exBrawlState1.matchesOf 100 = some exMatch1
    ∧ exBrawlState2.matchesOf 100 = some exMatch2
    ∧ submit_zk_commit exBrawlState1 100 1 1 1 20 =
        (.ok (), (exBrawlState1.setCommit
          ⟨100, 77, 1, 1, (1 : Nat) == exMatch1.player1⟩ 20).setMatch 100 exMatch1)
    ∧ submit_zk_verification ZkBetting.V0 exBrawlState2 100 1 1 1 10 4 exProof [6] =
        (.ok (), (exBrawlState2.setVerified
          ⟨100, 77, 1, 1, (1 : Nat) == exMatch2.player1⟩ ⟨9, 10, 4⟩).setMatch 100 exMatch2) :=
  ⟨by decide, by decide,
    (round_gate_resubmission_not_double_counted ZkBetting.V0 exBrawlState1
      100 1 1 1 exMatch1 77 (by decide) (by decide) (by decide) (by decide)
      (by decide) (by decide)).1 20 (Or.inl (by decide)) (by decide),
    (round_gate_resubmission_not_double_counted ZkBetting.V0 exBrawlState2
      100 1 1 1 exMatch2 77 (by decide) (by decide) (by decide) (by decide)
      (by decide) (by decide)).2 10 4 exProof [6] 9 (Or.inl (by decide))
      (by decide) (by decide) (Or.inl (by decide)) (by decide) (by decide)
      (by decide) (by decide)⟩

open Groth16 in
/-- C5: `verify_round_proof` returns the boolean `false` — and never
panics — whenever the proof is not exactly 256 bytes, or the stored key's
`ic` list length differs from `public_inputs.len() + 1`, or no key is
installed under `vk_id`.  (`public_inputs` is a Soroban `Vec` with a `u32`
length; the hypothesis `hlen` records that bound, under which the
source's `saturating_add` is exact.) -/
theorem verify_round_proof_fail_closed
    (ops : Bn254Ops) (vks : Nat → Option Groth16VerificationKey)
    (vk_id : Nat) (proof public_inputs : List Nat)
    (hlen : public_inputs.length + 1 < 2 ^ 32)
    (h : vks vk_id = none ∨ proof.length ≠ 256 ∨
      (∃ vk, vks vk_id = some vk ∧ vk.ic.length ≠ public_inputs.length + 1)) :
    verify_round_proof ops vks vk_id proof public_inputs = some false := by
  have hmin : min (public_inputs.length + 1) (2 ^ 32 - 1) = public_inputs.length + 1 := by
    omega
  rcases h with hnone | hplen | ⟨vk, hvk, hic⟩
  · simp [verify_round_proof, hnone]
  · rcases hv : vks vk_id with _ | vk
    · simp [verify_round_proof, hv]
    · simp [verify_round_proof, hv, PROOF_GROTH16_BYTES_LEN, hplen]
  · by_cases hplen : proof.length = 256
    · simp only [verify_round_proof, hvk, PROOF_GROTH16_BYTES_LEN, hplen, hmin]
      simp [hic]
    · simp [verify_round_proof, hvk, PROOF_GROTH16_BYTES_LEN, hplen]

open Groth16 in
/-- Witness for C5: no key installed under id `0`. -/
theorem verify_round_proof_fail_closed_witness :
    (0 : Nat) + 1 < 2 ^ 32 ∧ vks0 0 = none
    ∧ verify_round_proof ops0 vks0 0 [] [] = some false :=
  ⟨by norm_num, rfl,
    verify_round_proof_fail_closed ops0 vks0 0 [] [] (by norm_num) (Or.inl rfl)⟩

open ZkBetting in
/-- C4: for a Locked pool holding an unrevealed bet whose stored
commitment was produced as `H side0 salt0`, `reveal_bet_internal` (the
shared body of `reveal_bet` and `admin_reveal_bet`) succeeds iff the
recomputed hash equals the stored commitment, which — under injectivity of
the hash on (side byte, salt) pairs, the collision freeness the scheme
relies on — holds iff `(side, salt)` is exactly the committed pair; for
any other pair it fails with `InvalidReveal` leaving the state (bet
record, pool side totals, reveal count) unchanged and performing no
transfer. -/
theorem reveal_bet_binding
    (H : BetSide → Nat → Nat)
    (Hinj : ∀ a t a2 t2, H a t = H a2 t2 → a = a2 ∧ t = t2)
    (s : State) (pid b : Nat) (pool : BetPool) (bet : BetCommit)
    (hp : s.pools pid = some pool) (hl : pool.status = .Locked)
    (hb : s.bets pid b = some bet) (hr : bet.revealed = false)
    (side0 : BetSide) (salt0 : Nat) (hc : bet.commitment = H side0 salt0)
    (side : BetSide) (salt : Nat) :
    ((reveal_bet_internal H s pid b side salt).1 = .ok () ↔
      side = side0 ∧ salt = salt0)
    ∧ (¬(side = side0 ∧ salt = salt0) →
      reveal_bet_internal H s pid b side salt = (.error .InvalidReveal, s, [])) := by
  by_cases hEq : H side salt = bet.commitment
  · have hpair := Hinj side salt side0 salt0 (hEq.trans hc)
    refine ⟨⟨fun _ => hpair, fun _ => ?_⟩, fun hne => absurd hpair hne⟩
    simp [reveal_bet_internal, hp, hl, hb, hr, hEq]
  · have hred : reveal_bet_internal H s pid b side salt =
        (.error .InvalidReveal, s, []) := by
      simp [reveal_bet_internal, hp, hl, hb, hr, hEq]
    refine ⟨⟨fun hok => ?_, fun hpair => ?_⟩, fun _ => hred⟩
    · rw [hred] at hok
      exact absurd hok (by simp)
    · obtain ⟨rfl, rfl⟩ := hpair
      exact absurd hc.symm hEq

open ZkBetting in
/-- The concrete hash stand-in `H0` is injective on (side, salt) pairs. -/
theorem H0_injective : ∀ a t a2 t2, H0 a t = H0 a2 t2 → a = a2 ∧ t = t2 := by
  intro a t a2 t2 h
  cases a <;> cases a2 <;> simp [H0] at h ⊢ <;> omega

set_option maxRecDepth 8000 in
open ZkBetting in
/-- Witness for C4 at a concrete Locked pool: the committed pair
`(Player1, 42)` reveals successfully; the flipped pair `(Player2, 43)`
fails with `InvalidReveal` and leaves the state unchanged. -/
theorem reveal_bet_binding_witness :
    revealDemoState.pools 1 = some revealDemoPool
    ∧ revealDemoState.bets 1 7 = some revealDemoBet
    ∧ (reveal_bet_internal H0 revealDemoState 1 7 .Player1 42).1 = .ok ()
    ∧ reveal_bet_internal H0 revealDemoState 1 7 .Player2 43 =
        (.error .InvalidReveal, revealDemoState, []) :=
  ⟨by decide, by decide,
    (reveal_bet_binding H0 H0_injective revealDemoState 1 7 revealDemoPool
      revealDemoBet (by decide) (by decide) (by decide) (by decide)
      .Player1 42 (by decide) .Player1 42).1.mpr ⟨rfl, rfl⟩,
    (reveal_bet_binding H0 H0_injective revealDemoState 1 7 revealDemoPool
      revealDemoBet (by decide) (by decide) (by decide) (by decide)
      .Player1 42 (by decide) .Player2 43).2 (by decide)⟩

open ZkBetting in
/-- C8: every entrypoint is atomic on failure at the host level: when an
invocation returns an error, the host rollback leaves every stored record
untouched and no token transfer stands. -/
theorem entrypoint_atomic_on_error
    (H : BetSide → Nat → Nat) (V : Nat → Nat → List Nat → List Nat → Bool)
    (op : Op) (s : State) (e : Error)
    (h : (hostExec H V op s).1 = .error e) :
    hostState H V op s = s ∧ hostTransfers H V op s = [] := by
  unfold hostState hostTransfers
  unfold hostExec hostRun at h ⊢
  cases hr : (rawExec H V op s).1 <;> simp [hr] at h ⊢

open ZkBetting in
/-- Witness for C8: locking a nonexistent pool errors and changes
nothing. -/
theorem entrypoint_atomic_on_error_witness :
    (hostExec H0 V0 (.lockPool 1) initState).1 = .error .PoolNotFound
    ∧ hostState H0 V0 (.lockPool 1) initState = initState
    ∧ hostTransfers H0 V0 (.lockPool 1) initState = [] :=
  ⟨rfl,
    (entrypoint_atomic_on_error H0 V0 (.lockPool 1) initState .PoolNotFound rfl).1,
    (entrypoint_atomic_on_error H0 V0 (.lockPool 1) initState .PoolNotFound rfl).2⟩

set_option maxRecDepth 8000 in
open ZkBetting in
/-- C1 evaluation: `settle_pool_zk` never checks that the public inputs
bind the settled triple.  With the always-accepting verifier (the
repository test suite's `MockVerifierAcceptContract`) configured under
key id `7`, settling the Locked pool `1` (match id `1`) for `Player1`
(side `0`) with public inputs whose third word encodes winner side `1`
succeeds and records winner side `0` — the repository's own test
`test_settle_pool_zk_rejects_public_input_binding_mismatch` asserts this
very call must be rejected. -/
theorem settle_pool_zk_accepts_unbound_public_inputs :
    (zkSettleState.pools 1).map BetPool.match_id = some 1
    ∧ (zkSettleState.pools 1).map BetPool.status = some .Locked
    ∧ (settle_pool_zk V0 zkSettleState 1 .Player1 7
        (List.replicate 256 5) [1, 1, 1]).1 = .ok ()
    ∧ ((settle_pool_zk V0 zkSettleState 1 .Player1 7
        (List.replicate 256 5) [1, 1, 1]).2.1.pools 1).map BetPool.winner_side
        = some SIDE_P1
    ∧ (1 : Nat) ≠ SIDE_P1 := by
  refine ⟨by decide, by decide, by decide, by decide, by decide⟩

open ZkBetting in
/-- C6 evaluation: on the settled pool `forfeitState` whose bettor `7`
never revealed, the raw body of `claim_payout_internal` writes
`claimed := true` and then returns `Err(NoPayout)`; the host rollback
discards that write, so the bet stays unclaimed, and a second claim fails
with `NoPayout` again — not with `AlreadyClaimed` — while still never
transferring tokens. -/
theorem second_claim_after_forfeit_repeats_no_payout :
    (claim_payout_internal forfeitState 1 7).1 = .error .NoPayout
    ∧ ((claim_payout_internal forfeitState 1 7).2.1.bets 1 7).map
        BetCommit.claimed = some true
    ∧ (hostExec H0 V0 (.claimPayout 1 7) forfeitState).1 = .error .NoPayout
    ∧ hostTransfers H0 V0 (.claimPayout 1 7) forfeitState = []
    ∧ ((hostState H0 V0 (.claimPayout 1 7) forfeitState).bets 1 7).map
        BetCommit.claimed = some false
    ∧ (claim_payout_internal
        (hostState H0 V0 (.claimPayout 1 7) forfeitState) 1 7).1 = .error .NoPayout
    ∧ (hostTransfers H0 V0 (.claimPayout 1 7)
        (hostState H0 V0 (.claimPayout 1 7) forfeitState)) = []
    ∧ Error.NoPayout ≠ Error.AlreadyClaimed := by
  refine ⟨by decide, by decide, by decide, by decide, by decide, by decide,
    by decide, by decide⟩

open ZkBetting in
/-- A list of host-level invocations extends any trace. -/
theorem trace_runOps (H : BetSide → Nat → Nat)
    (V : Nat → Nat → List Nat → List Nat → Bool) :
    ∀ (ops : List Op) (s : State) (inA outA : Nat → Int),
      Trace H V s inA outA →
      Trace H V (runOps H V ops s) (runIn H V ops s inA) (runOut H V ops s outA) := by
  intro ops
  induction ops with
  | nil => intro s inA outA h; exact h
  | cons op rest ih =>
    intro s inA outA h
    exact ih _ _ _ (Trace.step s inA outA op h)

open ZkBetting in
/-- C2 counterexample: a reachable pool whose claim payouts exceed the
escrow taken in.  One bettor deposits `1_000_000 + 10_000` (stake + 1%
fee); the pool settles for the side the bettor revealed, and the claim
pays the fixed `2 × 1_000_000 = 2_000_000 > 1_010_000`. -/
theorem payout_exceeds_pool_escrow :
    ∃ s inA outA, Trace H0 V0 s inA outA
      ∧ inA 1 = 1010000 ∧ outA 1 = 2000000 ∧ inA 1 < outA 1 :=
  ⟨winState, winIn, winOut,
    trace_runOps H0 V0 winOps initState (fun _ => 0) (fun _ => 0) Trace.init,
    by decide, by decide, by decide⟩

open ZkBetting in
/-- C7 counterexample: `settle_pool` succeeds on a reachable pool whose
status is still `Open`, so `Settled` is reachable directly from `Open`,
not only from `Locked`. -/
theorem settle_reaches_settled_from_open :
    ∃ inA outA, Trace H0 V0 openPoolState inA outA
    ∧ (openPoolState.pools 1).map BetPool.status = some .Open
    ∧ (settle_pool openPoolState 1 .Player1).1 = .ok ()
    ∧ ((settle_pool openPoolState 1 .Player1).2.1.pools 1).map BetPool.status
        = some .Settled :=
  ⟨_, _,
    trace_runOps H0 V0 [.createPool 3 0] initState (fun _ => 0) (fun _ => 0)
      Trace.init,
    by decide, by decide, by decide⟩

namespace ZkBetting

@[simp]
theorem setPool_pools (s : State) (pid : Nat) (pool : BetPool) (q : Nat) :
    (s.setPool pid pool).pools q = if q = pid then some pool else s.pools q := rfl

@[simp]
theorem setPool_bets (s : State) (pid : Nat) (pool : BetPool) :
    (s.setPool pid pool).bets = s.bets := rfl

@[simp]
theorem setPool_bettors (s : State) (pid : Nat) (pool : BetPool) :
    (s.setPool pid pool).poolBettors = s.poolBettors := rfl

@[simp]
theorem setPool_counter (s : State) (pid : Nat) (pool : BetPool) :
    (s.setPool pid pool).poolCounter = s.poolCounter := rfl

@[simp]
theorem setBet_pools (s : State) (pid b : Nat) (bet : BetCommit) :
    (s.setBet pid b bet).pools = s.pools := rfl

@[simp]
theorem setBet_bets (s : State) (pid b : Nat) (bet : BetCommit) (q b2 : Nat) :
    (s.setBet pid b bet).bets q b2 =
      if q = pid ∧ b2 = b then some bet else s.bets q b2 := rfl

@[simp]
theorem setBet_bettors (s : State) (pid b : Nat) (bet : BetCommit) :
    (s.setBet pid b bet).poolBettors = s.poolBettors := rfl

@[simp]
theorem setBet_counter (s : State) (pid b : Nat) (bet : BetCommit) :
    (s.setBet pid b bet).poolCounter = s.poolCounter := rfl

@[simp]
theorem setBettors_pools (s : State) (pid : Nat) (l : List Nat) :
    (s.setBettors pid l).pools = s.pools := rfl

@[simp]
theorem setBettors_bets (s : State) (pid : Nat) (l : List Nat) :
    (s.setBettors pid l).bets = s.bets := rfl

@[simp]
theorem setBettors_bettors (s : State) (pid : Nat) (l : List Nat) (q : Nat) :
    (s.setBettors pid l).poolBettors q = if q = pid then l else s.poolBettors q := rfl

@[simp]
theorem setBettors_counter (s : State) (pid : Nat) (l : List Nat) :
    (s.setBettors pid l).poolCounter = s.poolCounter := rfl

theorem sum_map_congr {α : Type} (l : List α) (f g : α → Int)
    (h : ∀ x ∈ l, f x = g x) : (l.map f).sum = (l.map g).sum := by
  induction l with
  | nil => rfl
  | cons a t ih =>
    simp only [List.map_cons, List.sum_cons]
    rw [h a (by simp), ih (fun x hx => h x (by simp [hx]))]

theorem sum_map_le {α : Type} (l : List α) (f g : α → Int)
    (h : ∀ x ∈ l, f x ≤ g x) : (l.map f).sum ≤ (l.map g).sum := by
  induction l with
  | nil => exact le_refl 0
  | cons a t ih =>
    simp only [List.map_cons, List.sum_cons]
    exact add_le_add (h a (by simp)) (ih (fun x hx => h x (by simp [hx])))

theorem sum_map_update (f g : Nat → Int) (b0 : Nat) :
    ∀ l : List Nat, b0 ∈ l → l.Nodup →
    (∀ x ∈ l, x ≠ b0 → f x = g x) →
    (l.map f).sum = (l.map g).sum + (f b0 - g b0) := by
  intro l
  induction l with
  | nil => intro hmem; cases hmem
  | cons a t ih =>
    intro hmem hnd h
    simp only [List.map_cons, List.sum_cons]
    rcases List.mem_cons.mp hmem with hba | hmem2
    · have hnot : a ∉ t := (List.nodup_cons.mp hnd).1
      have hts : (t.map f).sum = (t.map g).sum :=
        sum_map_congr t f g (fun x hx =>
          h x (List.mem_cons_of_mem a hx) (fun hxe => hnot ((hba ▸ hxe) ▸ hx)))
      rw [hts, ← hba]
      ring
    · have ha : f a = g a :=
        h a (List.mem_cons_self a t)
          (fun hae => ((List.nodup_cons.mp hnd).1 (hae ▸ hmem2)))
      rw [ha, ih hmem2 (List.nodup_cons.mp hnd).2
        (fun x hx hxb => h x (List.mem_cons_of_mem a hx) hxb)]
      ring

theorem calc_fee_le_amount (a : Int) (ha : 0 ≤ a) : calc_fee a ≤ a := by
  unfold calc_fee
  have h1 : a * 100 + 9999 ≤ 9999 + a * 10000 := by nlinarith
  have h2 := Int.ediv_le_ediv (by norm_num : (0 : Int) < 10000) h1
  rw [Int.add_mul_ediv_right 9999 a (by norm_num : (10000 : Int) ≠ 0)] at h2
  simpa using h2

theorem betsSum_ext (s s2 : State) (p : Nat) (f : BetCommit → Int)
    (hbl : s2.poolBettors p = s.poolBettors p)
    (hb : ∀ b ∈ s.poolBettors p, s2.bets p b = s.bets p b) :
    betsSum s2 p f = betsSum s p f := by
  unfold betsSum
  rw [hbl]
  exact sum_map_congr _ _ _ (fun b hbm => by unfold betVal; rw [hb b hbm])

theorem betsSum_setPool (s : State) (pid : Nat) (pool : BetPool) (p : Nat)
    (f : BetCommit → Int) :
    betsSum (s.setPool pid pool) p f = betsSum s p f := rfl

theorem betsSum_setBet_mem (s : State) (p b0 : Nat) (bet bet0 : BetCommit)
    (f : BetCommit → Int) (hb : s.bets p b0 = some bet0)
    (hmem : b0 ∈ s.poolBettors p) (hnd : (s.poolBettors p).Nodup) :
    betsSum (s.setBet p b0 bet) p f = betsSum s p f + (f bet - f bet0) := by
  unfold betsSum
  have h := sum_map_update (betVal (s.setBet p b0 bet) p f) (betVal s p f) b0
    (s.poolBettors p) hmem hnd
    (fun x hx hxb => by simp [betVal, hxb])
  simp only [setBet_bettors]
  rw [h]
  have h0 : betVal (s.setBet p b0 bet) p f b0 = f bet := by simp [betVal]
  have h1 : betVal s p f b0 = f bet0 := by simp [betVal, hb]
  rw [h0, h1]

theorem betsSum_setBet_ne (s : State) (q b0 : Nat) (bet : BetCommit)
    (p : Nat) (f : BetCommit → Int) (hqp : q ≠ p) :
    betsSum (s.setBet q b0 bet) p f = betsSum s p f := by
  apply betsSum_ext
  · rfl
  · intro b _
    rw [setBet_bets, if_neg]
    rintro ⟨h1, -⟩
    exact hqp h1.symm

theorem betVal_setBettors (s : State) (pid : Nat) (l : List Nat) (p : Nat)
    (f : BetCommit → Int) : betVal (s.setBettors pid l) p f = betVal s p f := rfl

theorem betsSum_commit (s : State) (p b : Nat) (bet : BetCommit)
    (f : BetCommit → Int) (hnb : b ∉ s.poolBettors p) :
    betsSum ((s.setBet p b bet).setBettors p (s.poolBettors p ++ [b])) p f
      = betsSum s p f + f bet := by
  unfold betsSum
  have hbl : ((s.setBet p b bet).setBettors p (s.poolBettors p ++ [b])).poolBettors p
      = s.poolBettors p ++ [b] := by simp
  rw [hbl, betVal_setBettors, List.map_append, List.sum_append]
  have h1 : ((s.poolBettors p).map (betVal (s.setBet p b bet) p f)).sum
      = ((s.poolBettors p).map (betVal s p f)).sum := by
    apply sum_map_congr
    intro x hx
    have hxb : x ≠ b := fun he => hnb (he ▸ hx)
    simp [betVal, hxb]
  rw [h1]
  simp [betVal]

theorem betsSum_commit_ne (s : State) (p b : Nat) (bet : BetCommit)
    (q : Nat) (f : BetCommit → Int) (hqp : q ≠ p) :
    betsSum ((s.setBet p b bet).setBettors p (s.poolBettors p ++ [b])) q f
      = betsSum s q f := by
  unfold betsSum
  simp only [setBettors_bets, setBettors_bettors, if_neg hqp]
  apply sum_map_congr
  intro x hx
  simp [betVal, fun h : q = p => hqp h]

theorem map_congr_list {A B : Type} (l : List A) (f g : A → B)
    (h : ∀ x ∈ l, f x = g x) : l.map f = l.map g := by
  induction l with
  | nil => rfl
  | cons a t ih =>
    simp only [List.map_cons]
    rw [h a (by simp), ih (fun x hx => h x (by simp [hx]))]

theorem Inv.congr2 {s : State} {inA outA inA2 outA2 : Nat → Int}
    (h : Inv s inA outA) (hin : ∀ p, inA2 p = inA p)
    (hout : ∀ p, outA2 p = outA p) : Inv s inA2 outA2 where
  counter_bound := h.counter_bound
  bettors_none := h.bettors_none
  bets_none := h.bets_none
  in_none := fun p hp => (hin p).trans (h.in_none p hp)
  out_none := fun p hp => (hout p).trans (h.out_none p hp)
  dom := h.dom
  nodup := h.nodup
  bet_wf := h.bet_wf
  total_pool_eq := h.total_pool_eq
  total_fees_eq := h.total_fees_eq
  p1_eq := h.p1_eq
  p2_eq := h.p2_eq
  unclaimed := h.unclaimed
  in_eq := fun p pool hp => (hin p).trans (h.in_eq p pool hp)
  out_not_refunded := fun p pool hp hr =>
    (hout p).trans (h.out_not_refunded p pool hp hr)
  out_refunded := fun p pool hp hr =>
    ⟨(hout p).trans (h.out_refunded p pool hp hr).1,
      (h.out_refunded p pool hp hr).2⟩

@[simp]
theorem inflowTo_nil (p : Nat) : inflowTo p [] = 0 := rfl

@[simp]
theorem outflowTo_nil (p : Nat) : outflowTo p [] = 0 := rfl

theorem inflowTo_append (p : Nat) (ts ts2 : List Transfer) :
    inflowTo p (ts ++ ts2) = inflowTo p ts + inflowTo p ts2 := by
  unfold inflowTo
  rw [List.map_append, List.sum_append]

theorem outflowTo_append (p : Nat) (ts ts2 : List Transfer) :
    outflowTo p (ts ++ ts2) = outflowTo p ts + outflowTo p ts2 := by
  unfold outflowTo
  rw [List.map_append, List.sum_append]

@[simp]
theorem inflowTo_in_single (p q : Nat) (a : Int) :
    inflowTo p [⟨some q, true, a⟩] = if q = p then a else 0 := by
  by_cases h : q = p <;> simp [inflowTo, h]

@[simp]
theorem outflowTo_in_single (p q : Nat) (a : Int) :
    outflowTo p [⟨some q, true, a⟩] = 0 := by
  simp [outflowTo]

@[simp]
theorem inflowTo_out_single (p q : Nat) (a : Int) :
    inflowTo p [⟨some q, false, a⟩] = 0 := by
  simp [inflowTo]

@[simp]
theorem outflowTo_out_single (p q : Nat) (a : Int) :
    outflowTo p [⟨some q, false, a⟩] = if q = p then a else 0 := by
  by_cases h : q = p <;> simp [outflowTo, h]

@[simp]
theorem inflowTo_sweep_single (p : Nat) (a : Int) :
    inflowTo p [⟨none, false, a⟩] = 0 := by
  simp [inflowTo]

@[simp]
theorem outflowTo_sweep_single (p : Nat) (a : Int) :
    outflowTo p [⟨none, false, a⟩] = 0 := by
  simp [outflowTo]

theorem inflowTo_refund_list (p2 p : Nat) (st : State) (l : List Nat) :
    inflowTo p2 (l.map (fun b =>
      ⟨some p, false, betVal st p (fun bet => bet.amount + bet.fee_paid) b⟩)) = 0 := by
  unfold inflowTo
  rw [List.map_map]
  induction l with
  | nil => rfl
  | cons a t ih => simpa [Function.comp] using ih

theorem outflowTo_refund_list_self (p : Nat) (st : State) (l : List Nat) :
    outflowTo p (l.map (fun b =>
      ⟨some p, false, betVal st p (fun bet => bet.amount + bet.fee_paid) b⟩))
      = (l.map (betVal st p (fun bet => bet.amount + bet.fee_paid))).sum := by
  unfold outflowTo
  rw [List.map_map]
  apply congrArg
  apply map_congr_list
  intro x hx
  simp [Function.comp]

theorem outflowTo_refund_list_ne (p2 p : Nat) (st : State) (l : List Nat)
    (hne : p ≠ p2) :
    outflowTo p2 (l.map (fun b =>
      ⟨some p, false, betVal st p (fun bet => bet.amount + bet.fee_paid) b⟩)) = 0 := by
  unfold outflowTo
  rw [List.map_map]
  induction l with
  | nil => rfl
  | cons a t ih => simpa [Function.comp, hne] using ih

theorem refund_fold (p : Nat) :
    ∀ (l : List Nat) (st : State) (ts : List Transfer),
    l.Nodup →
    (∀ b ∈ l, ∃ bet, st.bets p b = some bet ∧ bet.claimed = false) →
    (l.foldl (refund_step p) (st, ts)).1.pools = st.pools
    ∧ (l.foldl (refund_step p) (st, ts)).1.poolBettors = st.poolBettors
    ∧ (l.foldl (refund_step p) (st, ts)).1.poolCounter = st.poolCounter
    ∧ (∀ q b, q ≠ p → (l.foldl (refund_step p) (st, ts)).1.bets q b = st.bets q b)
    ∧ (∀ b, b ∉ l → (l.foldl (refund_step p) (st, ts)).1.bets p b = st.bets p b)
    ∧ (∀ b ∈ l, ∃ bet, st.bets p b = some bet ∧
        (l.foldl (refund_step p) (st, ts)).1.bets p b = some { bet with claimed := true })
    ∧ (l.foldl (refund_step p) (st, ts)).2
        = ts ++ l.map (fun b =>
            ⟨some p, false, betVal st p (fun bet => bet.amount + bet.fee_paid) b⟩) := by
  intro l
  induction l with
  | nil =>
    intro st ts hnd hpre
    refine ⟨rfl, rfl, rfl, fun q b _ => rfl, fun b _ => rfl, fun b hb => absurd hb (by simp), by simp⟩
  | cons a t ih =>
    intro st ts hnd hpre
    obtain ⟨bet, hbet, hcl⟩ := hpre a (List.mem_cons_self a t)
    have hna : a ∉ t := (List.nodup_cons.mp hnd).1
    have hnd2 : t.Nodup := (List.nodup_cons.mp hnd).2
    have hstep : refund_step p (st, ts) a
        = (st.setBet p a { bet with claimed := true },
           ts ++ [⟨some p, false, bet.amount + bet.fee_paid⟩]) := by
      simp [refund_step, hbet, hcl]
    rw [List.foldl_cons, hstep]
    have hpre2 : ∀ b ∈ t, ∃ bet2,
        (st.setBet p a { bet with claimed := true }).bets p b = some bet2
        ∧ bet2.claimed = false := by
      intro b hb
      obtain ⟨bet2, hb2, hc2⟩ := hpre b (List.mem_cons_of_mem a hb)
      have hba : b ≠ a := fun h => hna (h ▸ hb)
      refine ⟨bet2, ?_, hc2⟩
      rw [setBet_bets, if_neg (by rintro ⟨-, h2⟩; exact hba h2), hb2]
    obtain ⟨h1, h2, h3, h4, h5, h6, h7⟩ :=
      ih (st.setBet p a { bet with claimed := true })
        (ts ++ [⟨some p, false, bet.amount + bet.fee_paid⟩]) hnd2 hpre2
    refine ⟨h1, h2, h3, ?_, ?_, ?_, ?_⟩
    · intro q b hq
      rw [h4 q b hq, setBet_bets, if_neg (by rintro ⟨h0, -⟩; exact hq h0)]
    · intro b hb
      have hba : b ≠ a := fun h => hb (h ▸ List.mem_cons_self a t)
      have hbt : b ∉ t := fun h => hb (List.mem_cons_of_mem a h)
      rw [h5 b hbt, setBet_bets, if_neg (by rintro ⟨-, h2⟩; exact hba h2)]
    · intro b hb
      rcases List.mem_cons.mp hb with hba | hbt
      · refine ⟨bet, hba ▸ hbet, ?_⟩
        have := h5 b (hba ▸ hna)
        rw [this, hba, setBet_bets, if_pos ⟨rfl, rfl⟩]
      · obtain ⟨bet2, hb2, hr2⟩ := h6 b hbt
        have hba : b ≠ a := fun h => hna (h ▸ hbt)
        rw [setBet_bets, if_neg (by rintro ⟨-, h2⟩; exact hba h2)] at hb2
        exact ⟨bet2, hb2, hr2⟩
    · rw [h7, List.append_assoc]
      apply congrArg
      have hmap : t.map (fun b =>
          (⟨some p, false, betVal (st.setBet p a { bet with claimed := true }) p
            (fun bet2 => bet2.amount + bet2.fee_paid) b⟩ : Transfer))
          = t.map (fun b =>
          (⟨some p, false, betVal st p (fun bet2 => bet2.amount + bet2.fee_paid) b⟩ : Transfer)) := by
        apply map_congr_list
        intro x hx
        have hxa : x ≠ a := fun h => hna (h ▸ hx)
        simp [betVal, hxa]
      rw [hmap]
      simp [betVal, hbet]

@[simp]
theorem setCounter_pools (s : State) (c : Nat) : (s.setCounter c).pools = s.pools := rfl

@[simp]
theorem setCounter_bets (s : State) (c : Nat) : (s.setCounter c).bets = s.bets := rfl

@[simp]
theorem setCounter_bettors (s : State) (c : Nat) :
    (s.setCounter c).poolBettors = s.poolBettors := rfl

@[simp]
theorem setCounter_counter (s : State) (c : Nat) :
    (s.setCounter c).poolCounter = c := rfl

@[simp]
theorem setAccrued_pools (s : State) (a : Int) : (s.setAccrued a).pools = s.pools := rfl

@[simp]
theorem setAccrued_bets (s : State) (a : Int) : (s.setAccrued a).bets = s.bets := rfl

@[simp]
theorem setAccrued_bettors (s : State) (a : Int) :
    (s.setAccrued a).poolBettors = s.poolBettors := rfl

@[simp]
theorem setAccrued_counter (s : State) (a : Int) :
    (s.setAccrued a).poolCounter = s.poolCounter := rfl

theorem betsSum_setCounter (s : State) (c : Nat) (p : Nat) (f : BetCommit → Int) :
    betsSum (s.setCounter c) p f = betsSum s p f := rfl

theorem betsSum_setAccrued (s : State) (a : Int) (p : Nat) (f : BetCommit → Int) :
    betsSum (s.setAccrued a) p f = betsSum s p f := rfl

theorem inv_wrap (H : BetSide → Nat → Nat)
    (V : Nat → Nat → List Nat → List Nat → Bool) (op : Op) (s : State)
    (inA outA : Nat → Int) (s2 : State) (ts : List Transfer)
    (hs : hostState H V op s = s2) (ht : hostTransfers H V op s = ts)
    (h2 : Inv s2 (fun p => inA p + inflowTo p ts)
      (fun p => outA p + outflowTo p ts)) :
    Inv (hostState H V op s)
      (fun p => inA p + inflowTo p (hostTransfers H V op s))
      (fun p => outA p + outflowTo p (hostTransfers H V op s)) := by
  simp only [hs, ht]
  exact h2

theorem Inv.pad_nil {s : State} {inA outA : Nat → Int} (h : Inv s inA outA) :
    Inv s (fun p => inA p + inflowTo p []) (fun p => outA p + outflowTo p []) :=
  h.congr2 (fun p => by simp) (fun p => by simp)

theorem inv_error_step (H : BetSide → Nat → Nat)
    (V : Nat → Nat → List Nat → List Nat → Bool) (op : Op) (s : State)
    (inA outA : Nat → Int) (hInv : Inv s inA outA)
    (he : ∃ e, (rawExec H V op s).1 = .error e) :
    Inv (hostState H V op s)
      (fun p => inA p + inflowTo p (hostTransfers H V op s))
      (fun p => outA p + outflowTo p (hostTransfers H V op s)) := by
  obtain ⟨e, he⟩ := he
  have hs : hostState H V op s = s := by
    simp [hostState, hostExec, hostRun, he]
  have ht : hostTransfers H V op s = [] := by
    simp [hostTransfers, hostExec, hostRun, he]
  exact inv_wrap H V op s inA outA s [] hs ht hInv.pad_nil

theorem inv_step_create (H : BetSide → Nat → Nat)
    (V : Nat → Nat → List Nat → List Nat → Bool) (s : State)
    (inA outA : Nat → Int) (m d : Nat) (h : Inv s inA outA) :
    Inv (hostState H V (.createPool m d) s)
      (fun p => inA p + inflowTo p (hostTransfers H V (.createPool m d) s))
      (fun p => outA p + outflowTo p (hostTransfers H V (.createPool m d) s)) := by
  have hs : hostState H V (.createPool m d) s
      = ((s.setPool (s.poolCounter + 1)
          ⟨s.poolCounter + 1, m, .Open, 0, 0, 0, 0, 0, 0, d, SIDE_NONE⟩).setBettors
          (s.poolCounter + 1) []).setCounter (s.poolCounter + 1) := rfl
  have ht : hostTransfers H V (.createPool m d) s = [] := rfl
  refine inv_wrap H V _ s inA outA _ [] hs ht (Inv.pad_nil ?_)
  have hnew : s.pools (s.poolCounter + 1) = none :=
    h.counter_bound (s.poolCounter + 1) (by omega)
  have hnewbets : ∀ b, s.bets (s.poolCounter + 1) b = none :=
    fun b => h.bets_none (s.poolCounter + 1) b hnew
  have hsumc : ∀ f, betsSum (((s.setPool (s.poolCounter + 1)
      ⟨s.poolCounter + 1, m, .Open, 0, 0, 0, 0, 0, 0, d, SIDE_NONE⟩).setBettors
      (s.poolCounter + 1) []).setCounter (s.poolCounter + 1)) (s.poolCounter + 1) f = 0 := by
    intro f
    simp [betsSum]
  have hsum : ∀ p, p ≠ s.poolCounter + 1 → ∀ f, betsSum (((s.setPool (s.poolCounter + 1)
      ⟨s.poolCounter + 1, m, .Open, 0, 0, 0, 0, 0, 0, d, SIDE_NONE⟩).setBettors
      (s.poolCounter + 1) []).setCounter (s.poolCounter + 1)) p f = betsSum s p f := by
    intro p hpc f
    apply betsSum_ext
    · simp [hpc]
    · intro b _
      rfl
  refine
    { counter_bound := ?_, bettors_none := ?_, bets_none := ?_, in_none := ?_,
      out_none := ?_, dom := ?_, nodup := ?_, bet_wf := ?_, total_pool_eq := ?_,
      total_fees_eq := ?_, p1_eq := ?_, p2_eq := ?_, unclaimed := ?_, in_eq := ?_,
      out_not_refunded := ?_, out_refunded := ?_ }
  · intro p hp
    simp only [setCounter_counter] at hp
    simp only [setCounter_pools, setBettors_pools, setPool_pools]
    rw [if_neg (by omega)]
    exact h.counter_bound p (by omega)
  · intro p hp
    by_cases hpc : p = s.poolCounter + 1
    · simp [hpc]
    · simp only [setCounter_pools, setBettors_pools, setPool_pools, if_neg hpc] at hp
      simp only [setCounter_bettors, setBettors_bettors, setPool_bettors, if_neg hpc]
      exact h.bettors_none p hp
  · intro p b hp
    by_cases hpc : p = s.poolCounter + 1
    · subst hpc
      exact hnewbets b
    · simp only [setCounter_pools, setBettors_pools, setPool_pools, if_neg hpc] at hp
      exact h.bets_none p b hp
  · intro p hp
    by_cases hpc : p = s.poolCounter + 1
    · subst hpc
      exact h.in_none _ hnew
    · simp only [setCounter_pools, setBettors_pools, setPool_pools, if_neg hpc] at hp
      exact h.in_none p hp
  · intro p hp
    by_cases hpc : p = s.poolCounter + 1
    · subst hpc
      exact h.out_none _ hnew
    · simp only [setCounter_pools, setBettors_pools, setPool_pools, if_neg hpc] at hp
      exact h.out_none p hp
  · intro p b
    by_cases hpc : p = s.poolCounter + 1
    · subst hpc
      simp [hnewbets b]
    · simp only [setCounter_bets, setBettors_bets, setPool_bets,
        setCounter_bettors, setBettors_bettors, setPool_bettors, if_neg hpc]
      exact h.dom p b
  · intro p
    by_cases hpc : p = s.poolCounter + 1
    · simp [hpc]
    · simp only [setCounter_bettors, setBettors_bettors, setPool_bettors, if_neg hpc]
      exact h.nodup p
  · intro p b bet hb
    exact h.bet_wf p b bet hb
  · intro p pool hp
    by_cases hpc : p = s.poolCounter + 1
    · subst hpc
      simp only [setCounter_pools, setBettors_pools, setPool_pools, if_pos rfl] at hp
      obtain rfl : (⟨s.poolCounter + 1, m, .Open, 0, 0, 0, 0, 0, 0, d, SIDE_NONE⟩ : BetPool) = pool := by
        exact Option.some_injective _ hp
      rw [hsumc]
    · simp only [setCounter_pools, setBettors_pools, setPool_pools, if_neg hpc] at hp
      rw [hsum p hpc]
      exact h.total_pool_eq p pool hp
  · intro p pool hp
    by_cases hpc : p = s.poolCounter + 1
    · subst hpc
      simp only [setCounter_pools, setBettors_pools, setPool_pools, if_pos rfl] at hp
      obtain rfl : (⟨s.poolCounter + 1, m, .Open, 0, 0, 0, 0, 0, 0, d, SIDE_NONE⟩ : BetPool) = pool := by
        exact Option.some_injective _ hp
      rw [hsumc]
    · simp only [setCounter_pools, setBettors_pools, setPool_pools, if_neg hpc] at hp
      rw [hsum p hpc]
      exact h.total_fees_eq p pool hp
  · intro p pool hp
    by_cases hpc : p = s.poolCounter + 1
    · subst hpc
      simp only [setCounter_pools, setBettors_pools, setPool_pools, if_pos rfl] at hp
      obtain rfl : (⟨s.poolCounter + 1, m, .Open, 0, 0, 0, 0, 0, 0, d, SIDE_NONE⟩ : BetPool) = pool := by
        exact Option.some_injective _ hp
      rw [hsumc]
    · simp only [setCounter_pools, setBettors_pools, setPool_pools, if_neg hpc] at hp
      rw [hsum p hpc]
      exact h.p1_eq p pool hp
  · intro p pool hp
    by_cases hpc : p = s.poolCounter + 1
    · subst hpc
      simp only [setCounter_pools, setBettors_pools, setPool_pools, if_pos rfl] at hp
      obtain rfl : (⟨s.poolCounter + 1, m, .Open, 0, 0, 0, 0, 0, 0, d, SIDE_NONE⟩ : BetPool) = pool := by
        exact Option.some_injective _ hp
      rw [hsumc]
    · simp only [setCounter_pools, setBettors_pools, setPool_pools, if_neg hpc] at hp
      rw [hsum p hpc]
      exact h.p2_eq p pool hp
  · intro p pool hp hst b bet hb
    by_cases hpc : p = s.poolCounter + 1
    · subst hpc
      rw [show (((s.setPool (s.poolCounter + 1)
          ⟨s.poolCounter + 1, m, .Open, 0, 0, 0, 0, 0, 0, d, SIDE_NONE⟩).setBettors
          (s.poolCounter + 1) []).setCounter (s.poolCounter + 1)).bets = s.bets from rfl] at hb
      rw [hnewbets b] at hb
      cases hb
    · simp only [setCounter_pools, setBettors_pools, setPool_pools, if_neg hpc] at hp
      exact h.unclaimed p pool hp hst b bet hb
  · intro p pool hp
    by_cases hpc : p = s.poolCounter + 1
    · subst hpc
      simp only [setCounter_pools, setBettors_pools, setPool_pools, if_pos rfl] at hp
      obtain rfl : (⟨s.poolCounter + 1, m, .Open, 0, 0, 0, 0, 0, 0, d, SIDE_NONE⟩ : BetPool) = pool := by
        exact Option.some_injective _ hp
      rw [h.in_none _ hnew]
      norm_num
    · simp only [setCounter_pools, setBettors_pools, setPool_pools, if_neg hpc] at hp
      exact h.in_eq p pool hp
  · intro p pool hp hst
    by_cases hpc : p = s.poolCounter + 1
    · subst hpc
      simp only [setCounter_pools, setBettors_pools, setPool_pools, if_pos rfl] at hp
      obtain rfl : (⟨s.poolCounter + 1, m, .Open, 0, 0, 0, 0, 0, 0, d, SIDE_NONE⟩ : BetPool) = pool := by
        exact Option.some_injective _ hp
      rw [h.out_none _ hnew, hsumc]
      norm_num
    · simp only [setCounter_pools, setBettors_pools, setPool_pools, if_neg hpc] at hp
      rw [hsum p hpc]
      exact h.out_not_refunded p pool hp hst
  · intro p pool hp hst
    by_cases hpc : p = s.poolCounter + 1
    · subst hpc
      simp only [setCounter_pools, setBettors_pools, setPool_pools, if_pos rfl] at hp
      obtain rfl : (⟨s.poolCounter + 1, m, .Open, 0, 0, 0, 0, 0, 0, d, SIDE_NONE⟩ : BetPool) = pool := by
        exact Option.some_injective _ hp
      cases hst
    · simp only [setCounter_pools, setBettors_pools, setPool_pools, if_neg hpc] at hp
      refine ⟨(h.out_refunded p pool hp hst).1, fun b bet hb => ?_⟩
      exact (h.out_refunded p pool hp hst).2 b bet hb

theorem Inv.setAccrued2 {s : State} {inA outA : Nat → Int} (a : Int)
    (h : Inv s inA outA) : Inv (s.setAccrued a) inA outA where
  counter_bound := h.counter_bound
  bettors_none := h.bettors_none
  bets_none := h.bets_none
  in_none := h.in_none
  out_none := h.out_none
  dom := h.dom
  nodup := h.nodup
  bet_wf := h.bet_wf
  total_pool_eq := h.total_pool_eq
  total_fees_eq := h.total_fees_eq
  p1_eq := h.p1_eq
  p2_eq := h.p2_eq
  unclaimed := h.unclaimed
  in_eq := h.in_eq
  out_not_refunded := h.out_not_refunded
  out_refunded := h.out_refunded

theorem inv_update_pool (s : State) (inA outA : Nat → Int) (pid : Nat)
    (pool pool1 : BetPool) (h : Inv s inA outA) (hp : s.pools pid = some pool)
    (htp : pool1.total_pool = pool.total_pool)
    (htf : pool1.total_fees = pool.total_fees)
    (hps1 : pool1.player1_total = pool.player1_total)
    (hps2 : pool1.player2_total = pool.player2_total)
    (huncl : pool1.status = .Open ∨ pool1.status = .Locked →
      ∀ b bet, s.bets pid b = some bet → bet.claimed = false)
    (hout_nr : pool1.status ≠ .Refunded →
      outA pid = 2 * betsSum s pid (fun bet => if bet.claimed = true then bet.amount else 0))
    (hout_r : pool1.status = .Refunded →
      outA pid = pool1.total_pool + pool1.total_fees ∧
        ∀ b bet, s.bets pid b = some bet → bet.claimed = true) :
    Inv (s.setPool pid pool1) inA outA := by
  refine
    { counter_bound := ?_, bettors_none := ?_, bets_none := ?_, in_none := ?_,
      out_none := ?_, dom := h.dom, nodup := h.nodup, bet_wf := h.bet_wf,
      total_pool_eq := ?_, total_fees_eq := ?_, p1_eq := ?_, p2_eq := ?_,
      unclaimed := ?_, in_eq := ?_, out_not_refunded := ?_, out_refunded := ?_ }
  · intro p hcp
    simp only [setPool_counter] at hcp
    simp only [setPool_pools]
    by_cases hpp : p = pid
    · subst hpp
      rw [h.counter_bound p hcp] at hp
      cases hp
    · rw [if_neg hpp]
      exact h.counter_bound p hcp
  · intro p hnone
    simp only [setPool_pools] at hnone
    by_cases hpp : p = pid
    · rw [if_pos hpp] at hnone
      cases hnone
    · rw [if_neg hpp] at hnone
      exact h.bettors_none p hnone
  · intro p b hnone
    simp only [setPool_pools] at hnone
    by_cases hpp : p = pid
    · rw [if_pos hpp] at hnone
      cases hnone
    · rw [if_neg hpp] at hnone
      exact h.bets_none p b hnone
  · intro p hnone
    simp only [setPool_pools] at hnone
    by_cases hpp : p = pid
    · rw [if_pos hpp] at hnone
      cases hnone
    · rw [if_neg hpp] at hnone
      exact h.in_none p hnone
  · intro p hnone
    simp only [setPool_pools] at hnone
    by_cases hpp : p = pid
    · rw [if_pos hpp] at hnone
      cases hnone
    · rw [if_neg hpp] at hnone
      exact h.out_none p hnone
  · intro p pool2 hp2
    simp only [setPool_pools] at hp2
    rw [betsSum_setPool]
    by_cases hpp : p = pid
    · subst hpp
      rw [if_pos rfl] at hp2
      obtain rfl : pool1 = pool2 := Option.some_injective _ hp2
      rw [htp]
      exact h.total_pool_eq p pool hp
    · rw [if_neg hpp] at hp2
      exact h.total_pool_eq p pool2 hp2
  · intro p pool2 hp2
    simp only [setPool_pools] at hp2
    rw [betsSum_setPool]
    by_cases hpp : p = pid
    · subst hpp
      rw [if_pos rfl] at hp2
      obtain rfl : pool1 = pool2 := Option.some_injective _ hp2
      rw [htf]
      exact h.total_fees_eq p pool hp
    · rw [if_neg hpp] at hp2
      exact h.total_fees_eq p pool2 hp2
  · intro p pool2 hp2
    simp only [setPool_pools] at hp2
    rw [betsSum_setPool]
    by_cases hpp : p = pid
    · subst hpp
      rw [if_pos rfl] at hp2
      obtain rfl : pool1 = pool2 := Option.some_injective _ hp2
      rw [hps1]
      exact h.p1_eq p pool hp
    · rw [if_neg hpp] at hp2
      exact h.p1_eq p pool2 hp2
  · intro p pool2 hp2
    simp only [setPool_pools] at hp2
    rw [betsSum_setPool]
    by_cases hpp : p = pid
    · subst hpp
      rw [if_pos rfl] at hp2
      obtain rfl : pool1 = pool2 := Option.some_injective _ hp2
      rw [hps2]
      exact h.p2_eq p pool hp
    · rw [if_neg hpp] at hp2
      exact h.p2_eq p pool2 hp2
  · intro p pool2 hp2 hst b bet hb
    simp only [setPool_pools] at hp2
    by_cases hpp : p = pid
    · subst hpp
      rw [if_pos rfl] at hp2
      obtain rfl : pool1 = pool2 := Option.some_injective _ hp2
      exact huncl hst b bet hb
    · rw [if_neg hpp] at hp2
      exact h.unclaimed p pool2 hp2 hst b bet hb
  · intro p pool2 hp2
    simp only [setPool_pools] at hp2
    by_cases hpp : p = pid
    · subst hpp
      rw [if_pos rfl] at hp2
      obtain rfl : pool1 = pool2 := Option.some_injective _ hp2
      rw [htp, htf]
      exact h.in_eq p pool hp
    · rw [if_neg hpp] at hp2
      exact h.in_eq p pool2 hp2
  · intro p pool2 hp2 hst
    simp only [setPool_pools] at hp2
    rw [betsSum_setPool]
    by_cases hpp : p = pid
    · subst hpp
      rw [if_pos rfl] at hp2
      obtain rfl : pool1 = pool2 := Option.some_injective _ hp2
      exact hout_nr hst
    · rw [if_neg hpp] at hp2
      exact h.out_not_refunded p pool2 hp2 hst
  · intro p pool2 hp2 hst
    simp only [setPool_pools] at hp2
    by_cases hpp : p = pid
    · subst hpp
      rw [if_pos rfl] at hp2
      obtain rfl : pool1 = pool2 := Option.some_injective _ hp2
      exact hout_r hst
    · rw [if_neg hpp] at hp2
      exact h.out_refunded p pool2 hp2 hst

theorem inv_step_lock (H : BetSide → Nat → Nat)
    (V : Nat → Nat → List Nat → List Nat → Bool) (s : State)
    (inA outA : Nat → Int) (pid : Nat) (h : Inv s inA outA) :
    Inv (hostState H V (.lockPool pid) s)
      (fun p => inA p + inflowTo p (hostTransfers H V (.lockPool pid) s))
      (fun p => outA p + outflowTo p (hostTransfers H V (.lockPool pid) s)) := by
  rcases hpl : s.pools pid with _ | pool
  · exact inv_error_step H V _ s inA outA h
      ⟨.PoolNotFound, by simp [rawExec, lock_pool, hpl]⟩
  · by_cases hO : pool.status = .Open
    · have hs : hostState H V (.lockPool pid) s
          = s.setPool pid { pool with status := .Locked } := by
        simp [hostState, hostExec, rawExec, lock_pool, hpl, hO, hostRun]
      have ht : hostTransfers H V (.lockPool pid) s = [] := by
        simp [hostTransfers, hostExec, rawExec, lock_pool, hpl, hO, hostRun]
      refine inv_wrap H V _ s inA outA _ [] hs ht (Inv.pad_nil ?_)
      refine inv_update_pool s inA outA pid pool _ h hpl rfl rfl rfl rfl ?_ ?_ ?_
      · intro _ b bet hb
        exact h.unclaimed pid pool hpl (Or.inl hO) b bet hb
      · intro _
        exact h.out_not_refunded pid pool hpl (by simp [hO])
      · intro hcontra
        cases hcontra
    · exact inv_error_step H V _ s inA outA h
        ⟨.PoolAlreadyLocked, by simp [rawExec, lock_pool, hpl, hO]⟩

theorem inv_step_settle (H : BetSide → Nat → Nat)
    (V : Nat → Nat → List Nat → List Nat → Bool) (s : State)
    (inA outA : Nat → Int) (pid : Nat) (w : BetSide) (h : Inv s inA outA) :
    Inv (hostState H V (.settlePool pid w) s)
      (fun p => inA p + inflowTo p (hostTransfers H V (.settlePool pid w) s))
      (fun p => outA p + outflowTo p (hostTransfers H V (.settlePool pid w) s)) := by
  rcases hpl : s.pools pid with _ | pool
  · exact inv_error_step H V _ s inA outA h
      ⟨.PoolNotFound, by simp [rawExec, settle_pool, hpl]⟩
  · by_cases hterm : pool.status = .Settled ∨ pool.status = .Refunded
    · exact inv_error_step H V _ s inA outA h
        ⟨.PoolAlreadySettled, by simp [rawExec, settle_pool, hpl, hterm]⟩
    · have hs : hostState H V (.settlePool pid w) s
          = (s.setPool pid
              { pool with
                  status := .Settled,
                  winner_side :=
                    (match w with | .Player1 => SIDE_P1 | .Player2 => SIDE_P2) }).setAccrued
              (s.feeAccrued + pool.total_fees) := by
        simp only [hostState, hostExec, rawExec, settle_pool, hpl, if_neg hterm, hostRun]
        rfl
      have ht : hostTransfers H V (.settlePool pid w) s = [] := by
        simp only [hostTransfers, hostExec, rawExec, settle_pool, hpl, if_neg hterm, hostRun]
      refine inv_wrap H V _ s inA outA _ [] hs ht (Inv.pad_nil (Inv.setAccrued2 _ ?_))
      refine inv_update_pool s inA outA pid pool _ h hpl rfl rfl rfl rfl ?_ ?_ ?_
      · rintro (hcontra | hcontra) <;> cases hcontra
      · intro _
        refine h.out_not_refunded pid pool hpl ?_
        intro hr
        exact hterm (Or.inr hr)
      · intro hcontra
        cases hcontra

theorem inv_step_settle_zk (H : BetSide → Nat → Nat)
    (V : Nat → Nat → List Nat → List Nat → Bool) (s : State)
    (inA outA : Nat → Int) (pid : Nat) (w : BetSide) (vk : Nat)
    (proof inputs : List Nat) (h : Inv s inA outA) :
    Inv (hostState H V (.settlePoolZk pid w vk proof inputs) s)
      (fun p => inA p + inflowTo p (hostTransfers H V (.settlePoolZk pid w vk proof inputs) s))
      (fun p => outA p + outflowTo p (hostTransfers H V (.settlePoolZk pid w vk proof inputs) s)) := by
  rcases hv : s.zkVerifier with _ | va
  · exact inv_error_step H V _ s inA outA h
      ⟨.ZkVerifierNotConfigured, by simp [rawExec, settle_pool_zk, hv]⟩
  · rcases hk : s.zkVkId with _ | ck
    · exact inv_error_step H V _ s inA outA h
        ⟨.ZkVerifierNotConfigured, by simp [rawExec, settle_pool_zk, hv, hk]⟩
    · by_cases hvk : vk ≠ ck
      · exact inv_error_step H V _ s inA outA h
          ⟨.ZkProofInvalid, by simp [rawExec, settle_pool_zk, hv, hk, hvk]⟩
      · by_cases hplen : proof.length = 256
        · by_cases hinp : inputs = []
          · have hcond : proof.length ≠ 256 ∨ inputs.length < 1 := by
              right
              simp [hinp]
            exact inv_error_step H V _ s inA outA h
              ⟨.ZkProofInvalid, by
                simp only [rawExec, settle_pool_zk, hv, hk, if_neg hvk, if_pos hcond]⟩
          · have hlen0 : inputs.length ≠ 0 :=
              fun h0 => hinp (List.length_eq_zero.mp h0)
            have hcond : ¬(proof.length ≠ 256 ∨ inputs.length < 1) := by
              rintro (hc | hc)
              · exact hc hplen
              · exact hlen0 (by omega)
            by_cases hV : V va vk proof inputs
            · have hred : rawExec H V (.settlePoolZk pid w vk proof inputs) s
                  = rawExec H V (.settlePool pid w) s := by
                simp only [rawExec, settle_pool_zk, hv, hk, if_neg hvk, if_neg hcond,
                  hV, not_true, if_neg (by simp : ¬¬True)]
                simp [hV]
              have h1 : hostState H V (.settlePoolZk pid w vk proof inputs) s
                  = hostState H V (.settlePool pid w) s := by
                unfold hostState hostExec
                rw [hred]
              have h2 : hostTransfers H V (.settlePoolZk pid w vk proof inputs) s
                  = hostTransfers H V (.settlePool pid w) s := by
                unfold hostTransfers hostExec
                rw [hred]
              simp only [h1, h2]
              exact inv_step_settle H V s inA outA pid w h
            · rw [Bool.not_eq_true] at hV
              exact inv_error_step H V _ s inA outA h
                ⟨.ZkProofInvalid, by
                  simp only [rawExec, settle_pool_zk, hv, hk, if_neg hvk, if_neg hcond, hV]
                  simp⟩
        · have hcond : proof.length ≠ 256 ∨ inputs.length < 1 := Or.inl hplen
          exact inv_error_step H V _ s inA outA h
            ⟨.ZkProofInvalid, by
              simp only [rawExec, settle_pool_zk, hv, hk, if_neg hvk, if_pos hcond]⟩

theorem inv_step_sweep (H : BetSide → Nat → Nat)
    (V : Nat → Nat → List Nat → List Nat → Bool) (s : State)
    (inA outA : Nat → Int) (now : Nat) (h : Inv s inA outA) :
    Inv (hostState H V (.sweepTreasury now) s)
      (fun p => inA p + inflowTo p (hostTransfers H V (.sweepTreasury now) s))
      (fun p => outA p + outflowTo p (hostTransfers H V (.sweepTreasury now) s)) := by
  by_cases h1 : s.lastSweepTs > 0 ∧ now - s.lastSweepTs < SWEEP_INTERVAL_SECONDS
  · exact inv_error_step H V _ s inA outA h
      ⟨.SweepTooEarly, by simp [rawExec, sweep_treasury, h1, Except.map]⟩
  · by_cases h2 : s.feeAccrued ≤ 0
    · exact inv_error_step H V _ s inA outA h
        ⟨.NothingToSweep, by simp [rawExec, sweep_treasury, h1, h2, Except.map]⟩
    · have hs : hostState H V (.sweepTreasury now) s
          = { s with feeAccrued := 0, lastSweepTs := now } := by
        simp only [hostState, hostExec, rawExec, sweep_treasury, if_neg h1, if_neg h2, hostRun, Except.map]
      have ht : hostTransfers H V (.sweepTreasury now) s
          = [⟨none, false, s.feeAccrued⟩] := by
        simp only [hostTransfers, hostExec, rawExec, sweep_treasury, if_neg h1, if_neg h2, hostRun, Except.map]
      refine inv_wrap H V _ s inA outA _ _ hs ht ?_
      have htrans : Inv ({ s with feeAccrued := 0, lastSweepTs := now }) inA outA :=
        { counter_bound := h.counter_bound, bettors_none := h.bettors_none,
          bets_none := h.bets_none, in_none := h.in_none, out_none := h.out_none,
          dom := h.dom, nodup := h.nodup, bet_wf := h.bet_wf,
          total_pool_eq := h.total_pool_eq, total_fees_eq := h.total_fees_eq,
          p1_eq := h.p1_eq, p2_eq := h.p2_eq, unclaimed := h.unclaimed,
          in_eq := h.in_eq, out_not_refunded := h.out_not_refunded,
          out_refunded := h.out_refunded }
      exact htrans.congr2 (fun p => by simp) (fun p => by simp)

theorem inv_step_setzk (H : BetSide → Nat → Nat)
    (V : Nat → Nat → List Nat → List Nat → Bool) (s : State)
    (inA outA : Nat → Int) (v vk : Nat) (h : Inv s inA outA) :
    Inv (hostState H V (.setZkVerifier v vk) s)
      (fun p => inA p + inflowTo p (hostTransfers H V (.setZkVerifier v vk) s))
      (fun p => outA p + outflowTo p (hostTransfers H V (.setZkVerifier v vk) s)) := by
  have hs : hostState H V (.setZkVerifier v vk) s
      = { s with zkVerifier := some v, zkVkId := some vk } := rfl
  have ht : hostTransfers H V (.setZkVerifier v vk) s = [] := rfl
  refine inv_wrap H V _ s inA outA _ [] hs ht (Inv.pad_nil ?_)
  exact
    { counter_bound := h.counter_bound, bettors_none := h.bettors_none,
      bets_none := h.bets_none, in_none := h.in_none, out_none := h.out_none,
      dom := h.dom, nodup := h.nodup, bet_wf := h.bet_wf,
      total_pool_eq := h.total_pool_eq, total_fees_eq := h.total_fees_eq,
      p1_eq := h.p1_eq, p2_eq := h.p2_eq, unclaimed := h.unclaimed,
      in_eq := h.in_eq, out_not_refunded := h.out_not_refunded,
      out_refunded := h.out_refunded }

theorem inv_step_commit (H : BetSide → Nat → Nat)
    (V : Nat → Nat → List Nat → List Nat → Bool) (s : State)
    (inA outA : Nat → Int) (now pid b c : Nat) (a : Int) (h : Inv s inA outA) :
    Inv (hostState H V (.commitBet now pid b c a) s)
      (fun p => inA p + inflowTo p (hostTransfers H V (.commitBet now pid b c a) s))
      (fun p => outA p + outflowTo p (hostTransfers H V (.commitBet now pid b c a) s)) := by
  by_cases hamt : a < MIN_BET_STROOPS
  · exact inv_error_step H V _ s inA outA h
      ⟨.InvalidAmount, by simp [rawExec, commit_bet, hamt]⟩
  · rcases hpl : s.pools pid with _ | pool
    · exact inv_error_step H V _ s inA outA h
        ⟨.PoolNotFound, by simp [rawExec, commit_bet, hamt, hpl]⟩
    · by_cases hO : pool.status = .Open
      · by_cases hdl : pool.deadline_ts > 0 ∧ now > pool.deadline_ts
        · exact inv_error_step H V _ s inA outA h
            ⟨.BettingDeadlinePassed, by simp [rawExec, commit_bet, hamt, hpl, hO, hdl]⟩
        · by_cases hbe : (s.bets pid b).isSome
          · exact inv_error_step H V _ s inA outA h
              ⟨.AlreadyCommitted, by simp [rawExec, commit_bet, hamt, hpl, hO, hdl, hbe]⟩
          · have hbnone : s.bets pid b = none := by
              rcases hsb : s.bets pid b with _ | bb
              · rfl
              · rw [hsb] at hbe
                simp at hbe
            have hnb : b ∉ s.poolBettors pid := by
              intro hmem
              have hm := (h.dom pid b).mpr hmem
              rw [hbnone] at hm
              simp at hm
            have hs : hostState H V (.commitBet now pid b c a) s
                = ((s.setBet pid b ⟨b, c, a, calc_fee a, false, SIDE_NONE, false⟩).setBettors
                    pid (s.poolBettors pid ++ [b])).setPool pid
                    { pool with total_pool := pool.total_pool + a, total_fees := pool.total_fees + calc_fee a, bet_count := pool.bet_count + 1 } := by
              simp only [hostState, hostExec, rawExec, commit_bet, if_neg hamt, hpl,
                hO, if_neg hdl, hbnone, hostRun]
              rfl
            have ht : hostTransfers H V (.commitBet now pid b c a) s
                = [⟨some pid, true, a + calc_fee a⟩] := by
              simp only [hostTransfers, hostExec, rawExec, commit_bet, if_neg hamt, hpl,
                hO, if_neg hdl, hbnone, hostRun]
              rfl
            refine inv_wrap H V _ s inA outA _ _ hs ht ?_
            have hbase : Inv (((s.setBet pid b
                ⟨b, c, a, calc_fee a, false, SIDE_NONE, false⟩).setBettors
                pid (s.poolBettors pid ++ [b])).setPool pid
                { pool with total_pool := pool.total_pool + a, total_fees := pool.total_fees + calc_fee a, bet_count := pool.bet_count + 1 })
                (fun p => inA p + if pid = p then a + calc_fee a else 0)
                (fun p => outA p + 0) := by
              have hbetsE : ∀ p b2, (((s.setBet pid b
                  ⟨b, c, a, calc_fee a, false, SIDE_NONE, false⟩).setBettors
                  pid (s.poolBettors pid ++ [b])).setPool pid
                  { pool with total_pool := pool.total_pool + a, total_fees := pool.total_fees + calc_fee a, bet_count := pool.bet_count + 1 }).bets p b2
                  = if p = pid ∧ b2 = b then some ⟨b, c, a, calc_fee a, false, SIDE_NONE, false⟩
                    else s.bets p b2 := fun p b2 => rfl
              have hbettE : ∀ p, (((s.setBet pid b
                  ⟨b, c, a, calc_fee a, false, SIDE_NONE, false⟩).setBettors
                  pid (s.poolBettors pid ++ [b])).setPool pid
                  { pool with total_pool := pool.total_pool + a, total_fees := pool.total_fees + calc_fee a, bet_count := pool.bet_count + 1 }).poolBettors p
                  = if p = pid then s.poolBettors pid ++ [b] else s.poolBettors p :=
                fun p => rfl
              have hsumE : ∀ f, betsSum (((s.setBet pid b
                  ⟨b, c, a, calc_fee a, false, SIDE_NONE, false⟩).setBettors
                  pid (s.poolBettors pid ++ [b])).setPool pid
                  { pool with total_pool := pool.total_pool + a, total_fees := pool.total_fees + calc_fee a, bet_count := pool.bet_count + 1 }) pid f
                  = betsSum s pid f + f ⟨b, c, a, calc_fee a, false, SIDE_NONE, false⟩ := by
                intro f
                rw [betsSum_setPool]
                exact betsSum_commit s pid b _ f hnb
              have hsumEne : ∀ p f, p ≠ pid → betsSum (((s.setBet pid b
                  ⟨b, c, a, calc_fee a, false, SIDE_NONE, false⟩).setBettors
                  pid (s.poolBettors pid ++ [b])).setPool pid
                  { pool with total_pool := pool.total_pool + a, total_fees := pool.total_fees + calc_fee a, bet_count := pool.bet_count + 1 }) p f = betsSum s p f := by
                intro p f hppid
                rw [betsSum_setPool]
                exact betsSum_commit_ne s pid b _ p f hppid
              refine
                { counter_bound := ?_, bettors_none := ?_, bets_none := ?_, in_none := ?_,
                  out_none := ?_, dom := ?_, nodup := ?_, bet_wf := ?_, total_pool_eq := ?_,
                  total_fees_eq := ?_, p1_eq := ?_, p2_eq := ?_, unclaimed := ?_, in_eq := ?_,
                  out_not_refunded := ?_, out_refunded := ?_ }
              · intro p hcp
                simp only [setPool_counter, setBettors_counter, setBet_counter] at hcp
                simp only [setPool_pools, setBettors_pools, setBet_pools]
                by_cases hpp : p = pid
                · subst hpp
                  rw [h.counter_bound p hcp] at hpl
                  cases hpl
                · rw [if_neg hpp]
                  exact h.counter_bound p hcp
              · intro p hnone
                simp only [setPool_pools, setBettors_pools, setBet_pools] at hnone
                by_cases hpp : p = pid
                · rw [if_pos hpp] at hnone
                  cases hnone
                · rw [if_neg hpp] at hnone
                  rw [hbettE, if_neg hpp]
                  exact h.bettors_none p hnone
              · intro p b2 hnone
                simp only [setPool_pools, setBettors_pools, setBet_pools] at hnone
                by_cases hpp : p = pid
                · rw [if_pos hpp] at hnone
                  cases hnone
                · rw [if_neg hpp] at hnone
                  rw [hbetsE, if_neg (by rintro ⟨h1, -⟩; exact hpp h1)]
                  exact h.bets_none p b2 hnone
              · intro p hnone
                simp only [setPool_pools, setBettors_pools, setBet_pools] at hnone
                by_cases hpp : p = pid
                · rw [if_pos hpp] at hnone
                  cases hnone
                · rw [if_neg hpp] at hnone
                  rw [if_neg (fun h2 => hpp h2.symm), add_zero]
                  exact h.in_none p hnone
              · intro p hnone
                simp only [setPool_pools, setBettors_pools, setBet_pools] at hnone
                by_cases hpp : p = pid
                · rw [if_pos hpp] at hnone
                  cases hnone
                · rw [if_neg hpp] at hnone
                  rw [add_zero]
                  exact h.out_none p hnone
              · intro p b2
                rw [hbetsE, hbettE]
                by_cases hpp : p = pid
                · subst hpp
                  rw [if_pos rfl]
                  by_cases hb2 : b2 = b
                  · subst hb2
                    rw [if_pos ⟨rfl, rfl⟩]
                    simp
                  · rw [if_neg (by rintro ⟨-, h2⟩; exact hb2 h2)]
                    rw [List.mem_append]
                    simp only [List.mem_singleton, hb2, or_false]
                    exact h.dom p b2
                · rw [if_neg (by rintro ⟨h1, -⟩; exact hpp h1), if_neg hpp]
                  exact h.dom p b2
              · intro p
                rw [hbettE]
                by_cases hpp : p = pid
                · rw [if_pos hpp]
                  rw [List.nodup_append]
                  refine ⟨h.nodup pid, List.nodup_singleton b, ?_⟩
                  intro x hx hxb
                  rw [List.mem_singleton] at hxb
                  subst hxb
                  exact hnb hx
                · rw [if_neg hpp]
                  exact h.nodup p
              · intro p b2 bet2 hb2
                rw [hbetsE] at hb2
                by_cases hcond : p = pid ∧ b2 = b
                · rw [if_pos hcond] at hb2
                  obtain rfl : (⟨b, c, a, calc_fee a, false, SIDE_NONE, false⟩ : BetCommit) = bet2 :=
                    Option.some_injective _ hb2
                  exact ⟨by show MIN_BET_STROOPS ≤ a; omega, rfl⟩
                · rw [if_neg hcond] at hb2
                  exact h.bet_wf p b2 bet2 hb2
              · intro p pool2 hp2
                simp only [setPool_pools, setBettors_pools, setBet_pools] at hp2
                by_cases hpp : p = pid
                · subst hpp
                  rw [if_pos rfl] at hp2
                  obtain rfl : ({ pool with total_pool := pool.total_pool + a, total_fees := pool.total_fees + calc_fee a, bet_count := pool.bet_count + 1 } : BetPool) = pool2 :=
                    Option.some_injective _ hp2
                  rw [hsumE]
                  have := h.total_pool_eq p pool hpl
                  simp only []
                  rw [this]
                · rw [if_neg hpp] at hp2
                  rw [hsumEne p _ hpp]
                  exact h.total_pool_eq p pool2 hp2
              · intro p pool2 hp2
                simp only [setPool_pools, setBettors_pools, setBet_pools] at hp2
                by_cases hpp : p = pid
                · subst hpp
                  rw [if_pos rfl] at hp2
                  obtain rfl : ({ pool with total_pool := pool.total_pool + a, total_fees := pool.total_fees + calc_fee a, bet_count := pool.bet_count + 1 } : BetPool) = pool2 :=
                    Option.some_injective _ hp2
                  rw [hsumE]
                  have := h.total_fees_eq p pool hpl
                  simp only []
                  rw [this]
                · rw [if_neg hpp] at hp2
                  rw [hsumEne p _ hpp]
                  exact h.total_fees_eq p pool2 hp2
              · intro p pool2 hp2
                simp only [setPool_pools, setBettors_pools, setBet_pools] at hp2
                by_cases hpp : p = pid
                · subst hpp
                  rw [if_pos rfl] at hp2
                  obtain rfl : ({ pool with total_pool := pool.total_pool + a, total_fees := pool.total_fees + calc_fee a, bet_count := pool.bet_count + 1 } : BetPool) = pool2 :=
                    Option.some_injective _ hp2
                  rw [hsumE]
                  have := h.p1_eq p pool hpl
                  simp only []
                  rw [this]
                  norm_num
                · rw [if_neg hpp] at hp2
                  rw [hsumEne p _ hpp]
                  exact h.p1_eq p pool2 hp2
              · intro p pool2 hp2
                simp only [setPool_pools, setBettors_pools, setBet_pools] at hp2
                by_cases hpp : p = pid
                · subst hpp
                  rw [if_pos rfl] at hp2
                  obtain rfl : ({ pool with total_pool := pool.total_pool + a, total_fees := pool.total_fees + calc_fee a, bet_count := pool.bet_count + 1 } : BetPool) = pool2 :=
                    Option.some_injective _ hp2
                  rw [hsumE]
                  have := h.p2_eq p pool hpl
                  simp only []
                  rw [this]
                  norm_num
                · rw [if_neg hpp] at hp2
                  rw [hsumEne p _ hpp]
                  exact h.p2_eq p pool2 hp2
              · intro p pool2 hp2 hst b2 bet2 hb2
                simp only [setPool_pools, setBettors_pools, setBet_pools] at hp2
                rw [hbetsE] at hb2
                by_cases hpp : p = pid
                · subst hpp
                  rw [if_pos rfl] at hp2
                  obtain rfl : ({ pool with total_pool := pool.total_pool + a, total_fees := pool.total_fees + calc_fee a, bet_count := pool.bet_count + 1 } : BetPool) = pool2 :=
                    Option.some_injective _ hp2
                  by_cases hb2b : b2 = b
                  · subst hb2b
                    rw [if_pos ⟨rfl, rfl⟩] at hb2
                    obtain rfl : (⟨b2, c, a, calc_fee a, false, SIDE_NONE, false⟩ : BetCommit) = bet2 :=
                      Option.some_injective _ hb2
                    rfl
                  · rw [if_neg (by rintro ⟨-, h2⟩; exact hb2b h2)] at hb2
                    exact h.unclaimed p pool hpl (by simpa using hst) b2 bet2 hb2
                · rw [if_neg hpp] at hp2
                  rw [if_neg (by rintro ⟨h1, -⟩; exact hpp h1)] at hb2
                  exact h.unclaimed p pool2 hp2 hst b2 bet2 hb2
              · intro p pool2 hp2
                simp only [setPool_pools, setBettors_pools, setBet_pools] at hp2
                by_cases hpp : p = pid
                · subst hpp
                  rw [if_pos rfl] at hp2
                  obtain rfl : ({ pool with total_pool := pool.total_pool + a, total_fees := pool.total_fees + calc_fee a, bet_count := pool.bet_count + 1 } : BetPool) = pool2 :=
                    Option.some_injective _ hp2
                  rw [if_pos rfl]
                  have := h.in_eq p pool hpl
                  simp only []
                  rw [this]
                  ring
                · rw [if_neg hpp] at hp2
                  rw [if_neg (fun h2 => hpp h2.symm), add_zero]
                  exact h.in_eq p pool2 hp2
              · intro p pool2 hp2 hst
                simp only [setPool_pools, setBettors_pools, setBet_pools] at hp2
                by_cases hpp : p = pid
                · subst hpp
                  rw [if_pos rfl] at hp2
                  obtain rfl : ({ pool with total_pool := pool.total_pool + a, total_fees := pool.total_fees + calc_fee a, bet_count := pool.bet_count + 1 } : BetPool) = pool2 :=
                    Option.some_injective _ hp2
                  rw [hsumE, add_zero]
                  have := h.out_not_refunded p pool hpl (by simp [hO])
                  simp only []
                  rw [this]
                  norm_num
                · rw [if_neg hpp] at hp2
                  rw [hsumEne p _ hpp, add_zero]
                  exact h.out_not_refunded p pool2 hp2 hst
              · intro p pool2 hp2 hst
                simp only [setPool_pools, setBettors_pools, setBet_pools] at hp2
                by_cases hpp : p = pid
                · subst hpp
                  rw [if_pos rfl] at hp2
                  obtain rfl : ({ pool with total_pool := pool.total_pool + a, total_fees := pool.total_fees + calc_fee a, bet_count := pool.bet_count + 1 } : BetPool) = pool2 :=
                    Option.some_injective _ hp2
                  rw [show ({ pool with total_pool := pool.total_pool + a, total_fees := pool.total_fees + calc_fee a, bet_count := pool.bet_count + 1 } : BetPool).status = pool.status from rfl,
                    hO] at hst
                  cases hst
                · rw [if_neg hpp] at hp2
                  refine ⟨by rw [add_zero]; exact (h.out_refunded p pool2 hp2 hst).1, ?_⟩
                  intro b2 bet2 hb2
                  rw [hbetsE, if_neg (by rintro ⟨h1, -⟩; exact hpp h1)] at hb2
                  exact (h.out_refunded p pool2 hp2 hst).2 b2 bet2 hb2
            exact hbase.congr2 (fun p => by simp) (fun p => by simp)
      · exact inv_error_step H V _ s inA outA h
          ⟨.PoolNotOpen, by simp [rawExec, commit_bet, hamt, hpl, hO]⟩

theorem sum_map_zero {A : Type} (l : List A) : (l.map (fun _ => (0 : Int))).sum = 0 := by
  induction l with
  | nil => rfl
  | cons a t ih => simpa using ih

theorem sum_map_add {A : Type} (l : List A) (f g : A → Int) :
    (l.map (fun x => f x + g x)).sum = (l.map f).sum + (l.map g).sum := by
  induction l with
  | nil => rfl
  | cons a t ih =>
    simp only [List.map_cons, List.sum_cons, ih]
    ring

theorem betsSum_add (s : State) (p : Nat) (f g : BetCommit → Int) :
    betsSum s p (fun bet => f bet + g bet) = betsSum s p f + betsSum s p g := by
  unfold betsSum
  rw [← sum_map_add]
  apply sum_map_congr
  intro b _
  unfold betVal
  rcases s.bets p b with _ | bet
  · simp
  · rfl

theorem inv_reveal_core (s : State) (inA outA : Nat → Int) (pid b : Nat)
    (pool : BetPool) (bet : BetCommit) (sideV : Nat) (pool1 : BetPool)
    (h : Inv s inA outA) (hpl : s.pools pid = some pool)
    (hL : pool.status = .Locked) (hbl : s.bets pid b = some bet)
    (hrev : bet.revealed = false)
    (hpool1 : pool1 = { pool with player1_total := pool.player1_total + bet.amount, reveal_count := pool.reveal_count + 1 } ∧ sideV = SIDE_P1
      ∨ pool1 = { pool with player2_total := pool.player2_total + bet.amount, reveal_count := pool.reveal_count + 1 } ∧ sideV = SIDE_P2) :
    Inv ((s.setBet pid b { bet with revealed := true, side := sideV }).setPool pid pool1)
      inA outA := by
  have hmem : b ∈ s.poolBettors pid := by
    refine (h.dom pid b).mp ?_
    rw [hbl]
    rfl
  have hclaimed : bet.claimed = false :=
    h.unclaimed pid pool hpl (Or.inr hL) b bet hbl
  have hnd := h.nodup pid
  have hstat1 : pool1.status = .Locked := by
    rcases hpool1 with ⟨hp1, -⟩ | ⟨hp1, -⟩ <;> rw [hp1] <;> exact hL
  have htp1 : pool1.total_pool = pool.total_pool := by
    rcases hpool1 with ⟨hp1, -⟩ | ⟨hp1, -⟩ <;> rw [hp1]
  have htf1 : pool1.total_fees = pool.total_fees := by
    rcases hpool1 with ⟨hp1, -⟩ | ⟨hp1, -⟩ <;> rw [hp1]
  have hsum : ∀ f : BetCommit → Int,
      betsSum ((s.setBet pid b { bet with revealed := true, side := sideV }).setPool pid pool1) pid f
      = betsSum s pid f + (f { bet with revealed := true, side := sideV } - f bet) := by
    intro f
    rw [betsSum_setPool]
    exact betsSum_setBet_mem s pid b _ bet f hbl hmem hnd
  have hsumne : ∀ p (f : BetCommit → Int), p ≠ pid →
      betsSum ((s.setBet pid b { bet with revealed := true, side := sideV }).setPool pid pool1) p f
      = betsSum s p f := by
    intro p f hppid
    rw [betsSum_setPool]
    apply betsSum_ext
    · rfl
    · intro b2 _
      rw [setBet_bets, if_neg (by rintro ⟨h1, -⟩; exact hppid h1)]
  have hbetsE : ∀ p b2, ((s.setBet pid b { bet with revealed := true, side := sideV }).setPool pid pool1).bets p b2
      = if p = pid ∧ b2 = b then some { bet with revealed := true, side := sideV } else s.bets p b2 :=
    fun p b2 => rfl
  refine
    { counter_bound := ?_, bettors_none := ?_, bets_none := ?_, in_none := ?_,
      out_none := ?_, dom := ?_, nodup := h.nodup, bet_wf := ?_, total_pool_eq := ?_,
      total_fees_eq := ?_, p1_eq := ?_, p2_eq := ?_, unclaimed := ?_, in_eq := ?_,
      out_not_refunded := ?_, out_refunded := ?_ }
  · intro p hcp
    simp only [setPool_counter, setBet_counter] at hcp
    simp only [setPool_pools, setBet_pools]
    by_cases hpp : p = pid
    · subst hpp
      rw [h.counter_bound p hcp] at hpl
      cases hpl
    · rw [if_neg hpp]
      exact h.counter_bound p hcp
  · intro p hnone
    simp only [setPool_pools, setBet_pools] at hnone
    by_cases hpp : p = pid
    · rw [if_pos hpp] at hnone
      cases hnone
    · rw [if_neg hpp] at hnone
      exact h.bettors_none p hnone
  · intro p b2 hnone
    simp only [setPool_pools, setBet_pools] at hnone
    by_cases hpp : p = pid
    · rw [if_pos hpp] at hnone
      cases hnone
    · rw [if_neg hpp] at hnone
      rw [hbetsE, if_neg (by rintro ⟨h1, -⟩; exact hpp h1)]
      exact h.bets_none p b2 hnone
  · intro p hnone
    simp only [setPool_pools, setBet_pools] at hnone
    by_cases hpp : p = pid
    · rw [if_pos hpp] at hnone
      cases hnone
    · rw [if_neg hpp] at hnone
      exact h.in_none p hnone
  · intro p hnone
    simp only [setPool_pools, setBet_pools] at hnone
    by_cases hpp : p = pid
    · rw [if_pos hpp] at hnone
      cases hnone
    · rw [if_neg hpp] at hnone
      exact h.out_none p hnone
  · intro p b2
    rw [hbetsE]
    by_cases hcond : p = pid ∧ b2 = b
    · rw [if_pos hcond]
      obtain ⟨rfl, rfl⟩ := hcond
      simpa using hmem
    · rw [if_neg hcond]
      exact h.dom p b2
  · intro p b2 bet2 hb2
    rw [hbetsE] at hb2
    by_cases hcond : p = pid ∧ b2 = b
    · rw [if_pos hcond] at hb2
      obtain rfl : ({ bet with revealed := true, side := sideV } : BetCommit) = bet2 :=
        Option.some_injective _ hb2
      exact h.bet_wf pid b bet hbl
    · rw [if_neg hcond] at hb2
      exact h.bet_wf p b2 bet2 hb2
  · intro p pool2 hp2
    simp only [setPool_pools, setBet_pools] at hp2
    by_cases hpp : p = pid
    · subst hpp
      rw [if_pos rfl] at hp2
      obtain rfl : pool1 = pool2 := Option.some_injective _ hp2
      rw [hsum, htp1]
      have hz : ({ bet with revealed := true, side := sideV } : BetCommit).amount - bet.amount = 0 := by
        simp
      rw [hz, add_zero]
      exact h.total_pool_eq p pool hpl
    · rw [if_neg hpp] at hp2
      rw [hsumne p _ hpp]
      exact h.total_pool_eq p pool2 hp2
  · intro p pool2 hp2
    simp only [setPool_pools, setBet_pools] at hp2
    by_cases hpp : p = pid
    · subst hpp
      rw [if_pos rfl] at hp2
      obtain rfl : pool1 = pool2 := Option.some_injective _ hp2
      rw [hsum, htf1]
      have hz : ({ bet with revealed := true, side := sideV } : BetCommit).fee_paid - bet.fee_paid = 0 := by
        simp
      rw [hz, add_zero]
      exact h.total_fees_eq p pool hpl
    · rw [if_neg hpp] at hp2
      rw [hsumne p _ hpp]
      exact h.total_fees_eq p pool2 hp2
  · intro p pool2 hp2
    simp only [setPool_pools, setBet_pools] at hp2
    by_cases hpp : p = pid
    · subst hpp
      rw [if_pos rfl] at hp2
      obtain rfl : pool1 = pool2 := Option.some_injective _ hp2
      rw [hsum]
      rcases hpool1 with ⟨hp1, hsv⟩ | ⟨hp1, hsv⟩ <;>
        (subst hsv; rw [hp1]; simp [hrev, SIDE_P1, SIDE_P2, h.p1_eq _ pool hpl])
    · rw [if_neg hpp] at hp2
      rw [hsumne p _ hpp]
      exact h.p1_eq p pool2 hp2
  · intro p pool2 hp2
    simp only [setPool_pools, setBet_pools] at hp2
    by_cases hpp : p = pid
    · subst hpp
      rw [if_pos rfl] at hp2
      obtain rfl : pool1 = pool2 := Option.some_injective _ hp2
      rw [hsum]
      rcases hpool1 with ⟨hp1, hsv⟩ | ⟨hp1, hsv⟩ <;>
        (subst hsv; rw [hp1]; simp [hrev, SIDE_P1, SIDE_P2, h.p2_eq _ pool hpl])
    · rw [if_neg hpp] at hp2
      rw [hsumne p _ hpp]
      exact h.p2_eq p pool2 hp2
  · intro p pool2 hp2 hst b2 bet2 hb2
    simp only [setPool_pools, setBet_pools] at hp2
    rw [hbetsE] at hb2
    by_cases hpp : p = pid
    · subst hpp
      rw [if_pos rfl] at hp2
      obtain rfl : pool1 = pool2 := Option.some_injective _ hp2
      by_cases hcond : b2 = b
      · subst hcond
        rw [if_pos ⟨rfl, rfl⟩] at hb2
        obtain rfl : ({ bet with revealed := true, side := sideV } : BetCommit) = bet2 :=
          Option.some_injective _ hb2
        exact hclaimed
      · rw [if_neg (by rintro ⟨-, h2⟩; exact hcond h2)] at hb2
        exact h.unclaimed _ pool hpl (Or.inr hL) b2 bet2 hb2
    · rw [if_neg hpp] at hp2
      rw [if_neg (by rintro ⟨h1, -⟩; exact hpp h1)] at hb2
      exact h.unclaimed p pool2 hp2 hst b2 bet2 hb2
  · intro p pool2 hp2
    simp only [setPool_pools, setBet_pools] at hp2
    by_cases hpp : p = pid
    · subst hpp
      rw [if_pos rfl] at hp2
      obtain rfl : pool1 = pool2 := Option.some_injective _ hp2
      rw [htp1, htf1]
      exact h.in_eq p pool hpl
    · rw [if_neg hpp] at hp2
      exact h.in_eq p pool2 hp2
  · intro p pool2 hp2 hst
    simp only [setPool_pools, setBet_pools] at hp2
    by_cases hpp : p = pid
    · subst hpp
      rw [if_pos rfl] at hp2
      obtain rfl : pool1 = pool2 := Option.some_injective _ hp2
      rw [hsum]
      have hz : (if ({ bet with revealed := true, side := sideV } : BetCommit).claimed = true then ({ bet with revealed := true, side := sideV } : BetCommit).amount else 0) - (if bet.claimed = true then bet.amount else 0) = 0 := by
        simp
      rw [hz, add_zero]
      exact h.out_not_refunded _ pool hpl (by simp [hL])
    · rw [if_neg hpp] at hp2
      rw [hsumne p _ hpp]
      exact h.out_not_refunded p pool2 hp2 hst
  · intro p pool2 hp2 hst
    simp only [setPool_pools, setBet_pools] at hp2
    by_cases hpp : p = pid
    · subst hpp
      rw [if_pos rfl] at hp2
      obtain rfl : pool1 = pool2 := Option.some_injective _ hp2
      rw [hstat1] at hst
      cases hst
    · rw [if_neg hpp] at hp2
      refine ⟨(h.out_refunded p pool2 hp2 hst).1, ?_⟩
      intro b2 bet2 hb2
      rw [hbetsE, if_neg (by rintro ⟨h1, -⟩; exact hpp h1)] at hb2
      exact (h.out_refunded p pool2 hp2 hst).2 b2 bet2 hb2


theorem inv_step_reveal (H : BetSide → Nat → Nat)
    (V : Nat → Nat → List Nat → List Nat → Bool) (s : State)
    (inA outA : Nat → Int) (pid b : Nat) (side : BetSide) (salt : Nat)
    (h : Inv s inA outA) :
    Inv (hostState H V (.revealBet pid b side salt) s)
      (fun p => inA p + inflowTo p (hostTransfers H V (.revealBet pid b side salt) s))
      (fun p => outA p + outflowTo p (hostTransfers H V (.revealBet pid b side salt) s)) := by
  rcases hpl : s.pools pid with _ | pool
  · exact inv_error_step H V _ s inA outA h
      ⟨.PoolNotFound, by simp [rawExec, reveal_bet_internal, hpl]⟩
  · by_cases hL : pool.status = .Locked
    · rcases hbl : s.bets pid b with _ | bet
      · exact inv_error_step H V _ s inA outA h
          ⟨.BetNotFound, by simp [rawExec, reveal_bet_internal, hpl, hL, hbl]⟩
      · by_cases hrev : bet.revealed
        · exact inv_error_step H V _ s inA outA h
            ⟨.AlreadyRevealed, by simp [rawExec, reveal_bet_internal, hpl, hL, hbl, hrev]⟩
        · by_cases hcm : H side salt = bet.commitment
          · rw [Bool.not_eq_true] at hrev
            rcases side with _ | _
            · have hs : hostState H V (.revealBet pid b .Player1 salt) s
                  = (s.setBet pid b { bet with revealed := true, side := SIDE_P1 }).setPool pid { pool with player1_total := pool.player1_total + bet.amount, reveal_count := pool.reveal_count + 1 } := by
                simp [hostState, hostExec, rawExec, reveal_bet_internal, hpl, hL,
                  hbl, hrev, hcm, hostRun]
              have ht : hostTransfers H V (.revealBet pid b .Player1 salt) s = [] := by
                simp [hostTransfers, hostExec, rawExec, reveal_bet_internal, hpl,
                  hL, hbl, hrev, hcm, hostRun]
              refine inv_wrap H V _ s inA outA _ [] hs ht (Inv.pad_nil ?_)
              exact inv_reveal_core s inA outA pid b pool bet SIDE_P1 _ h hpl hL hbl
                hrev (Or.inl ⟨rfl, rfl⟩)
            · have hs : hostState H V (.revealBet pid b .Player2 salt) s
                  = (s.setBet pid b { bet with revealed := true, side := SIDE_P2 }).setPool pid { pool with player2_total := pool.player2_total + bet.amount, reveal_count := pool.reveal_count + 1 } := by
                simp [hostState, hostExec, rawExec, reveal_bet_internal, hpl, hL,
                  hbl, hrev, hcm, hostRun]
              have ht : hostTransfers H V (.revealBet pid b .Player2 salt) s = [] := by
                simp [hostTransfers, hostExec, rawExec, reveal_bet_internal, hpl,
                  hL, hbl, hrev, hcm, hostRun]
              refine inv_wrap H V _ s inA outA _ [] hs ht (Inv.pad_nil ?_)
              exact inv_reveal_core s inA outA pid b pool bet SIDE_P2 _ h hpl hL hbl
                hrev (Or.inr ⟨rfl, rfl⟩)
          · exact inv_error_step H V _ s inA outA h
              ⟨.InvalidReveal, by simp [rawExec, reveal_bet_internal, hpl, hL, hbl, hrev, hcm]⟩
    · exact inv_error_step H V _ s inA outA h
        ⟨.PoolNotLocked, by simp [rawExec, reveal_bet_internal, hpl, hL]⟩

theorem inv_step_claim (H : BetSide → Nat → Nat)
    (V : Nat → Nat → List Nat → List Nat → Bool) (s : State)
    (inA outA : Nat → Int) (pid b : Nat) (h : Inv s inA outA) :
    Inv (hostState H V (.claimPayout pid b) s)
      (fun p => inA p + inflowTo p (hostTransfers H V (.claimPayout pid b) s))
      (fun p => outA p + outflowTo p (hostTransfers H V (.claimPayout pid b) s)) := by
  rcases hpl : s.pools pid with _ | pool
  · exact inv_error_step H V _ s inA outA h
      ⟨.PoolNotFound, by simp [rawExec, claim_payout_internal, hpl, Except.map]⟩
  · by_cases hS : pool.status = .Settled
    · rcases hbl : s.bets pid b with _ | bet
      · exact inv_error_step H V _ s inA outA h
          ⟨.BetNotFound, by simp [rawExec, claim_payout_internal, hpl, hS, hbl, Except.map]⟩
      · by_cases hcl : bet.claimed
        · exact inv_error_step H V _ s inA outA h
            ⟨.AlreadyClaimed, by simp [rawExec, claim_payout_internal, hpl, hS, hbl, hcl, Except.map]⟩
        · by_cases hw : pool.winner_side = SIDE_NONE
          · exact inv_error_step H V _ s inA outA h
              ⟨.InvalidWinner, by simp [rawExec, claim_payout_internal, hpl, hS, hbl, hcl, hw, Except.map]⟩
          · by_cases hrev : bet.revealed
            · by_cases hside : bet.side = pool.winner_side
              · by_cases hpay : bet.amount * 2 ≤ 0
                · exact inv_error_step H V _ s inA outA h
                    ⟨.NoPayout, by simp [rawExec, claim_payout_internal, hpl, hS, hbl,
                      hcl, hw, hrev, hside, hpay, Except.map]⟩
                · have hmem : b ∈ s.poolBettors pid := by
                    refine (h.dom pid b).mp ?_
                    rw [hbl]
                    rfl
                  have hclf : bet.claimed = false := by
                    rw [Bool.not_eq_true] at hcl
                    exact hcl
                  have hs : hostState H V (.claimPayout pid b) s
                      = s.setBet pid b { bet with claimed := true } := by
                    simp [hostState, hostExec, rawExec, claim_payout_internal, hpl, hS,
                      hbl, hcl, hw, hrev, hside, hpay, hostRun, Except.map]
                  have ht : hostTransfers H V (.claimPayout pid b) s
                      = [⟨some pid, false, bet.amount * 2⟩] := by
                    simp [hostTransfers, hostExec, rawExec, claim_payout_internal, hpl,
                      hS, hbl, hcl, hw, hrev, hside, hpay, hostRun, Except.map]
                  refine inv_wrap H V _ s inA outA _ _ hs ht ?_
                  have hsum : ∀ f : BetCommit → Int,
                      betsSum (s.setBet pid b { bet with claimed := true }) pid f
                      = betsSum s pid f + (f { bet with claimed := true } - f bet) :=
                    fun f => betsSum_setBet_mem s pid b _ bet f hbl hmem (h.nodup pid)
                  have hsumne : ∀ p (f : BetCommit → Int), p ≠ pid →
                      betsSum (s.setBet pid b { bet with claimed := true }) p f
                      = betsSum s p f := by
                    intro p f hppid
                    apply betsSum_ext
                    · rfl
                    · intro b2 _
                      rw [setBet_bets, if_neg (by rintro ⟨h1, -⟩; exact hppid h1)]
                  have hbase : Inv (s.setBet pid b { bet with claimed := true }) inA
                      (fun p => outA p + if pid = p then bet.amount * 2 else 0) := by
                    refine
                      { counter_bound := h.counter_bound, bettors_none := h.bettors_none,
                        bets_none := ?_, in_none := h.in_none, out_none := ?_,
                        dom := ?_, nodup := h.nodup, bet_wf := ?_, total_pool_eq := ?_,
                        total_fees_eq := ?_, p1_eq := ?_, p2_eq := ?_, unclaimed := ?_,
                        in_eq := h.in_eq, out_not_refunded := ?_, out_refunded := ?_ }
                    · intro p b2 hnone
                      rw [setBet_pools] at hnone
                      rw [setBet_bets, if_neg ?_]
                      · exact h.bets_none p b2 hnone
                      · rintro ⟨h1, -⟩
                        subst h1
                        rw [hnone] at hpl
                        cases hpl
                    · intro p hnone
                      rw [setBet_pools] at hnone
                      rw [if_neg ?_, add_zero]
                      · exact h.out_none p hnone
                      · intro h1
                        subst h1
                        rw [hnone] at hpl
                        cases hpl
                    · intro p b2
                      rw [setBet_bets]
                      by_cases hcond : p = pid ∧ b2 = b
                      · rw [if_pos hcond]
                        obtain ⟨rfl, rfl⟩ := hcond
                        simpa using hmem
                      · rw [if_neg hcond]
                        exact h.dom p b2
                    · intro p b2 bet2 hb2
                      rw [setBet_bets] at hb2
                      by_cases hcond : p = pid ∧ b2 = b
                      · rw [if_pos hcond] at hb2
                        obtain rfl : ({ bet with claimed := true } : BetCommit) = bet2 :=
                          Option.some_injective _ hb2
                        exact h.bet_wf pid b bet hbl
                      · rw [if_neg hcond] at hb2
                        exact h.bet_wf p b2 bet2 hb2
                    · intro p pool2 hp2
                      by_cases hpp : p = pid
                      · subst hpp
                        rw [hsum]
                        have hz : ({ bet with claimed := true } : BetCommit).amount - bet.amount = 0 := by simp
                        rw [hz, add_zero]
                        exact h.total_pool_eq p pool2 hp2
                      · rw [hsumne p _ hpp]
                        exact h.total_pool_eq p pool2 hp2
                    · intro p pool2 hp2
                      by_cases hpp : p = pid
                      · subst hpp
                        rw [hsum]
                        have hz : ({ bet with claimed := true } : BetCommit).fee_paid - bet.fee_paid = 0 := by simp
                        rw [hz, add_zero]
                        exact h.total_fees_eq p pool2 hp2
                      · rw [hsumne p _ hpp]
                        exact h.total_fees_eq p pool2 hp2
                    · intro p pool2 hp2
                      by_cases hpp : p = pid
                      · subst hpp
                        rw [hsum]
                        have hz : (if ({ bet with claimed := true } : BetCommit).revealed = true ∧ ({ bet with claimed := true } : BetCommit).side = SIDE_P1 then ({ bet with claimed := true } : BetCommit).amount else 0) - (if bet.revealed = true ∧ bet.side = SIDE_P1 then bet.amount else 0) = 0 := by
                          simp
                        rw [hz, add_zero]
                        exact h.p1_eq p pool2 hp2
                      · rw [hsumne p _ hpp]
                        exact h.p1_eq p pool2 hp2
                    · intro p pool2 hp2
                      by_cases hpp : p = pid
                      · subst hpp
                        rw [hsum]
                        have hz : (if ({ bet with claimed := true } : BetCommit).revealed = true ∧ ({ bet with claimed := true } : BetCommit).side = SIDE_P2 then ({ bet with claimed := true } : BetCommit).amount else 0) - (if bet.revealed = true ∧ bet.side = SIDE_P2 then bet.amount else 0) = 0 := by
                          simp
                        rw [hz, add_zero]
                        exact h.p2_eq p pool2 hp2
                      · rw [hsumne p _ hpp]
                        exact h.p2_eq p pool2 hp2
                    · intro p pool2 hp2 hst b2 bet2 hb2
                      rw [setBet_pools] at hp2
                      rw [setBet_bets] at hb2
                      by_cases hcond : p = pid ∧ b2 = b
                      · obtain ⟨rfl, rfl⟩ := hcond
                        rw [hpl] at hp2
                        obtain rfl : pool = pool2 := Option.some_injective _ hp2
                        rcases hst with hst | hst <;> (rw [hS] at hst; cases hst)
                      · rw [if_neg hcond] at hb2
                        exact h.unclaimed p pool2 hp2 hst b2 bet2 hb2
                    · intro p pool2 hp2 hst
                      rw [setBet_pools] at hp2
                      by_cases hpp : p = pid
                      · subst hpp
                        rw [hpl] at hp2
                        obtain rfl : pool = pool2 := Option.some_injective _ hp2
                        rw [if_pos rfl, hsum]
                        have hnewv : (if ({ bet with claimed := true } : BetCommit).claimed = true then ({ bet with claimed := true } : BetCommit).amount else 0) = bet.amount := by
                          simp
                        have holdv : (if bet.claimed = true then bet.amount else 0) = 0 := by
                          simp [hclf]
                        rw [hnewv, holdv, h.out_not_refunded p pool hpl (by simp [hS])]
                        ring
                      · rw [if_neg (fun h1 => hpp h1.symm), add_zero, hsumne p _ hpp]
                        exact h.out_not_refunded p pool2 hp2 hst
                    · intro p pool2 hp2 hst
                      rw [setBet_pools] at hp2
                      by_cases hpp : p = pid
                      · subst hpp
                        rw [hpl] at hp2
                        obtain rfl : pool = pool2 := Option.some_injective _ hp2
                        rw [hS] at hst
                        cases hst
                      · rw [if_neg (fun h1 => hpp h1.symm), add_zero]
                        refine ⟨(h.out_refunded p pool2 hp2 hst).1, ?_⟩
                        intro b2 bet2 hb2
                        rw [setBet_bets, if_neg (by rintro ⟨h1, -⟩; exact hpp h1)] at hb2
                        exact (h.out_refunded p pool2 hp2 hst).2 b2 bet2 hb2
                  exact hbase.congr2 (fun p => by simp) (fun p => by simp)
              · exact inv_error_step H V _ s inA outA h
                  ⟨.NoPayout, by simp [rawExec, claim_payout_internal, hpl, hS, hbl,
                    hcl, hw, hrev, hside, Except.map]⟩
            · exact inv_error_step H V _ s inA outA h
                ⟨.NoPayout, by simp [rawExec, claim_payout_internal, hpl, hS, hbl, hcl,
                  hw, hrev, Except.map]⟩
    · exact inv_error_step H V _ s inA outA h
        ⟨.PoolNotSettled, by simp [rawExec, claim_payout_internal, hpl, hS, Except.map]⟩

theorem inv_step_refund (H : BetSide → Nat → Nat)
    (V : Nat → Nat → List Nat → List Nat → Bool) (s : State)
    (inA outA : Nat → Int) (pid : Nat) (h : Inv s inA outA) :
    Inv (hostState H V (.refundPool pid) s)
      (fun p => inA p + inflowTo p (hostTransfers H V (.refundPool pid) s))
      (fun p => outA p + outflowTo p (hostTransfers H V (.refundPool pid) s)) := by
  rcases hpl : s.pools pid with _ | pool
  · exact inv_error_step H V _ s inA outA h
      ⟨.PoolNotFound, by simp [rawExec, refund_pool, hpl]⟩
  · by_cases hterm : pool.status = .Settled ∨ pool.status = .Refunded
    · exact inv_error_step H V _ s inA outA h
        ⟨.PoolAlreadySettled, by simp [rawExec, refund_pool, hpl, hterm]⟩
    · have hstatOL : pool.status = .Open ∨ pool.status = .Locked := by
        rcases hps : pool.status
        · exact Or.inl rfl
        · exact Or.inr rfl
        · exact absurd (Or.inl hps) hterm
        · exact absurd (Or.inr hps) hterm
      have hnd := h.nodup pid
      have hpre : ∀ b ∈ s.poolBettors pid, ∃ bet, s.bets pid b = some bet
          ∧ bet.claimed = false := by
        intro b hbm
        have hsome := (h.dom pid b).mpr hbm
        rcases hsb : s.bets pid b with _ | bet
        · rw [hsb] at hsome
          cases hsome
        · exact ⟨bet, rfl, h.unclaimed pid pool hpl hstatOL b bet hsb⟩
      obtain ⟨f1, f2, f3, f4, f5, f6, f7⟩ :=
        refund_fold pid (s.poolBettors pid) s [] hnd hpre
      have hs : hostState H V (.refundPool pid) s
          = ((s.poolBettors pid).foldl (refund_step pid) (s, [])).1.setPool pid
              { pool with status := .Refunded } := by
        simp only [hostState, hostExec, rawExec, refund_pool, hpl, if_neg hterm, hostRun]
      have ht : hostTransfers H V (.refundPool pid) s
          = ((s.poolBettors pid).foldl (refund_step pid) (s, [])).2 := by
        simp only [hostTransfers, hostExec, rawExec, refund_pool, hpl, if_neg hterm, hostRun]
      have hts2 : ((s.poolBettors pid).foldl (refund_step pid) (s, [])).2
          = (s.poolBettors pid).map (fun b =>
              ⟨some pid, false, betVal s pid (fun bet => bet.amount + bet.fee_paid) b⟩) := by
        rw [f7]
        rfl
      have hinflow : ∀ p,
          inflowTo p ((s.poolBettors pid).foldl (refund_step pid) (s, [])).2 = 0 := by
        intro p
        rw [hts2]
        exact inflowTo_refund_list p pid s _
      have houtflow : ∀ p,
          outflowTo p ((s.poolBettors pid).foldl (refund_step pid) (s, [])).2
          = if p = pid then pool.total_pool + pool.total_fees else 0 := by
        intro p
        rw [hts2]
        by_cases hppid : p = pid
        · subst hppid
          rw [if_pos rfl, outflowTo_refund_list_self]
          have : ((s.poolBettors p).map (betVal s p (fun bet => bet.amount + bet.fee_paid))).sum
              = betsSum s p (fun bet => bet.amount + bet.fee_paid) := rfl
          rw [this, betsSum_add, ← h.total_pool_eq p pool hpl, ← h.total_fees_eq p pool hpl]
        · rw [if_neg hppid, outflowTo_refund_list_ne p pid s _ (fun he => hppid he.symm)]
      have hclsum : betsSum s pid (fun bet => if bet.claimed = true then bet.amount else 0) = 0 := by
        unfold betsSum
        rw [sum_map_congr (s.poolBettors pid) _ (fun _ => (0 : Int)) ?_]
        · exact sum_map_zero _
        · intro b hbm
          obtain ⟨bet, hbet, hcl⟩ := hpre b hbm
          simp [betVal, hbet, hcl]
      have hbetsE : ∀ b2, (((s.poolBettors pid).foldl (refund_step pid) (s, [])).1.setPool pid
          { pool with status := .Refunded }).bets pid b2
          = ((s.poolBettors pid).foldl (refund_step pid) (s, [])).1.bets pid b2 :=
        fun b2 => rfl
      refine inv_wrap H V _ s inA outA _ _ hs ht ?_
      have hbase : Inv (((s.poolBettors pid).foldl (refund_step pid) (s, [])).1.setPool pid
          { pool with status := .Refunded }) inA
          (fun p => outA p + if p = pid then pool.total_pool + pool.total_fees else 0) := by
        have hsum_pid : ∀ f : BetCommit → Int, (∀ bet : BetCommit, f { bet with claimed := true } = f bet) →
            betsSum (((s.poolBettors pid).foldl (refund_step pid) (s, [])).1.setPool pid
              { pool with status := .Refunded }) pid f = betsSum s pid f := by
          intro f hf
          unfold betsSum
          have hbl : (((s.poolBettors pid).foldl (refund_step pid) (s, [])).1.setPool pid
              { pool with status := .Refunded }).poolBettors pid = s.poolBettors pid := by
            rw [setPool_bettors, f2]
          rw [hbl]
          apply sum_map_congr
          intro b hbm
          obtain ⟨bet, hbet, hbets2⟩ := f6 b hbm
          unfold betVal
          rw [hbetsE, hbets2, hbet]
          exact hf bet
        have hsumne : ∀ p (f : BetCommit → Int), p ≠ pid →
            betsSum (((s.poolBettors pid).foldl (refund_step pid) (s, [])).1.setPool pid
              { pool with status := .Refunded }) p f = betsSum s p f := by
          intro p f hppid
          apply betsSum_ext
          · rw [setPool_bettors, f2]
          · intro b2 _
            rw [show (((s.poolBettors pid).foldl (refund_step pid) (s, [])).1.setPool pid
              { pool with status := .Refunded }).bets p b2 = ((s.poolBettors pid).foldl (refund_step pid) (s, [])).1.bets p b2 from rfl]
            exact f4 p b2 hppid
        have hpoolsE : ∀ p, (((s.poolBettors pid).foldl (refund_step pid) (s, [])).1.setPool pid
            { pool with status := .Refunded }).pools p
            = if p = pid then some { pool with status := .Refunded } else s.pools p := by
          intro p
          rw [setPool_pools, f1]
        refine
          { counter_bound := ?_, bettors_none := ?_, bets_none := ?_, in_none := ?_,
            out_none := ?_, dom := ?_, nodup := ?_, bet_wf := ?_, total_pool_eq := ?_,
            total_fees_eq := ?_, p1_eq := ?_, p2_eq := ?_, unclaimed := ?_, in_eq := ?_,
            out_not_refunded := ?_, out_refunded := ?_ }
        · intro p hcp
          rw [hpoolsE]
          have hcp2 : s.poolCounter < p := by
            have : (((s.poolBettors pid).foldl (refund_step pid) (s, [])).1.setPool pid
              { pool with status := .Refunded }).poolCounter = s.poolCounter := by
              rw [setPool_counter, f3]
            rw [this] at hcp
            exact hcp
          by_cases hpp : p = pid
          · subst hpp
            rw [h.counter_bound p hcp2] at hpl
            cases hpl
          · rw [if_neg hpp]
            exact h.counter_bound p hcp2
        · intro p hnone
          rw [hpoolsE] at hnone
          by_cases hpp : p = pid
          · rw [if_pos hpp] at hnone
            cases hnone
          · rw [if_neg hpp] at hnone
            rw [setPool_bettors, f2]
            exact h.bettors_none p hnone
        · intro p b2 hnone
          rw [hpoolsE] at hnone
          by_cases hpp : p = pid
          · rw [if_pos hpp] at hnone
            cases hnone
          · rw [if_neg hpp] at hnone
            rw [show (((s.poolBettors pid).foldl (refund_step pid) (s, [])).1.setPool pid
              { pool with status := .Refunded }).bets p b2 = ((s.poolBettors pid).foldl (refund_step pid) (s, [])).1.bets p b2 from rfl]
            rw [f4 p b2 hpp]
            exact h.bets_none p b2 hnone
        · intro p hnone
          rw [hpoolsE] at hnone
          by_cases hpp : p = pid
          · rw [if_pos hpp] at hnone
            cases hnone
          · rw [if_neg hpp] at hnone
            exact h.in_none p hnone
        · intro p hnone
          rw [hpoolsE] at hnone
          by_cases hpp : p = pid
          · rw [if_pos hpp] at hnone
            cases hnone
          · rw [if_neg hpp] at hnone
            rw [if_neg hpp, add_zero]
            exact h.out_none p hnone
        · intro p b2
          rw [setPool_bettors, f2]
          by_cases hpp : p = pid
          · subst hpp
            rw [hbetsE]
            by_cases hbm : b2 ∈ s.poolBettors p
            · obtain ⟨bet, hbet, hbets2⟩ := f6 b2 hbm
              rw [hbets2]
              simpa using hbm
            · rw [f5 b2 hbm]
              exact h.dom p b2
          · rw [show (((s.poolBettors pid).foldl (refund_step pid) (s, [])).1.setPool pid
              { pool with status := .Refunded }).bets p b2 = ((s.poolBettors pid).foldl (refund_step pid) (s, [])).1.bets p b2 from rfl]
            rw [f4 p b2 hpp]
            exact h.dom p b2
        · intro p
          rw [setPool_bettors, f2]
          exact h.nodup p
        · intro p b2 bet2 hb2
          by_cases hpp : p = pid
          · subst hpp
            rw [hbetsE] at hb2
            by_cases hbm : b2 ∈ s.poolBettors p
            · obtain ⟨bet, hbet, hbets2⟩ := f6 b2 hbm
              rw [hbets2] at hb2
              obtain rfl : ({ bet with claimed := true } : BetCommit) = bet2 :=
                Option.some_injective _ hb2
              exact h.bet_wf p b2 bet hbet
            · rw [f5 b2 hbm] at hb2
              exact h.bet_wf p b2 bet2 hb2
          · rw [show (((s.poolBettors pid).foldl (refund_step pid) (s, [])).1.setPool pid
              { pool with status := .Refunded }).bets p b2 = ((s.poolBettors pid).foldl (refund_step pid) (s, [])).1.bets p b2 from rfl] at hb2
            rw [f4 p b2 hpp] at hb2
            exact h.bet_wf p b2 bet2 hb2
        · intro p pool2 hp2
          rw [hpoolsE] at hp2
          by_cases hpp : p = pid
          · subst hpp
            rw [if_pos rfl] at hp2
            obtain rfl : ({ pool with status := .Refunded } : BetPool) = pool2 :=
              Option.some_injective _ hp2
            rw [hsum_pid (fun bet => bet.amount) (fun bet => rfl)]
            exact h.total_pool_eq p pool hpl
          · rw [if_neg hpp] at hp2
            rw [hsumne p _ hpp]
            exact h.total_pool_eq p pool2 hp2
        · intro p pool2 hp2
          rw [hpoolsE] at hp2
          by_cases hpp : p = pid
          · subst hpp
            rw [if_pos rfl] at hp2
            obtain rfl : ({ pool with status := .Refunded } : BetPool) = pool2 :=
              Option.some_injective _ hp2
            rw [hsum_pid (fun bet => bet.fee_paid) (fun bet => rfl)]
            exact h.total_fees_eq p pool hpl
          · rw [if_neg hpp] at hp2
            rw [hsumne p _ hpp]
            exact h.total_fees_eq p pool2 hp2
        · intro p pool2 hp2
          rw [hpoolsE] at hp2
          by_cases hpp : p = pid
          · subst hpp
            rw [if_pos rfl] at hp2
            obtain rfl : ({ pool with status := .Refunded } : BetPool) = pool2 :=
              Option.some_injective _ hp2
            rw [hsum_pid (fun bet => if bet.revealed = true ∧ bet.side = SIDE_P1 then bet.amount else 0) (fun bet => rfl)]
            exact h.p1_eq p pool hpl
          · rw [if_neg hpp] at hp2
            rw [hsumne p _ hpp]
            exact h.p1_eq p pool2 hp2
        · intro p pool2 hp2
          rw [hpoolsE] at hp2
          by_cases hpp : p = pid
          · subst hpp
            rw [if_pos rfl] at hp2
            obtain rfl : ({ pool with status := .Refunded } : BetPool) = pool2 :=
              Option.some_injective _ hp2
            rw [hsum_pid (fun bet => if bet.revealed = true ∧ bet.side = SIDE_P2 then bet.amount else 0) (fun bet => rfl)]
            exact h.p2_eq p pool hpl
          · rw [if_neg hpp] at hp2
            rw [hsumne p _ hpp]
            exact h.p2_eq p pool2 hp2
        · intro p pool2 hp2 hst b2 bet2 hb2
          rw [hpoolsE] at hp2
          by_cases hpp : p = pid
          · subst hpp
            rw [if_pos rfl] at hp2
            obtain rfl : ({ pool with status := .Refunded } : BetPool) = pool2 :=
              Option.some_injective _ hp2
            rcases hst with hst | hst <;> cases hst
          · rw [if_neg hpp] at hp2
            rw [show (((s.poolBettors pid).foldl (refund_step pid) (s, [])).1.setPool pid
              { pool with status := .Refunded }).bets p b2 = ((s.poolBettors pid).foldl (refund_step pid) (s, [])).1.bets p b2 from rfl] at hb2
            rw [f4 p b2 hpp] at hb2
            exact h.unclaimed p pool2 hp2 hst b2 bet2 hb2
        · intro p pool2 hp2
          rw [hpoolsE] at hp2
          by_cases hpp : p = pid
          · subst hpp
            rw [if_pos rfl] at hp2
            obtain rfl : ({ pool with status := .Refunded } : BetPool) = pool2 :=
              Option.some_injective _ hp2
            exact h.in_eq p pool hpl
          · rw [if_neg hpp] at hp2
            exact h.in_eq p pool2 hp2
        · intro p pool2 hp2 hst
          rw [hpoolsE] at hp2
          by_cases hpp : p = pid
          · subst hpp
            rw [if_pos rfl] at hp2
            obtain rfl : ({ pool with status := .Refunded } : BetPool) = pool2 :=
              Option.some_injective _ hp2
            exact absurd rfl hst
          · rw [if_neg hpp] at hp2
            rw [if_neg hpp, add_zero, hsumne p _ hpp]
            exact h.out_not_refunded p pool2 hp2 hst
        · intro p pool2 hp2 hst
          rw [hpoolsE] at hp2
          by_cases hpp : p = pid
          · subst hpp
            rw [if_pos rfl] at hp2
            obtain rfl : ({ pool with status := .Refunded } : BetPool) = pool2 :=
              Option.some_injective _ hp2
            constructor
            · rw [if_pos rfl, h.out_not_refunded p pool hpl ?_, hclsum]
              · ring
              · rcases hstatOL with hOL | hOL <;> simp [hOL]
            · intro b2 bet2 hb2
              rw [hbetsE] at hb2
              by_cases hbm : b2 ∈ s.poolBettors p
              · obtain ⟨bet, hbet, hbets2⟩ := f6 b2 hbm
                rw [hbets2] at hb2
                obtain rfl : ({ bet with claimed := true } : BetCommit) = bet2 :=
                  Option.some_injective _ hb2
                rfl
              · rw [f5 b2 hbm] at hb2
                have hsome : (s.bets p b2).isSome = true := by
                  rw [hb2]
                  rfl
                exact absurd ((h.dom p b2).mp hsome) hbm
          · rw [if_neg hpp] at hp2
            refine ⟨?_, ?_⟩
            · rw [if_neg hpp, add_zero]
              exact (h.out_refunded p pool2 hp2 hst).1
            · intro b2 bet2 hb2
              rw [show (((s.poolBettors pid).foldl (refund_step pid) (s, [])).1.setPool pid
                { pool with status := .Refunded }).bets p b2 = ((s.poolBettors pid).foldl (refund_step pid) (s, [])).1.bets p b2 from rfl] at hb2
              rw [f4 p b2 hpp] at hb2
              exact (h.out_refunded p pool2 hp2 hst).2 b2 bet2 hb2
      refine hbase.congr2 (fun p => by rw [hinflow p, add_zero]) (fun p => by rw [houtflow p])

theorem inv_init : Inv initState (fun _ => 0) (fun _ => 0) := by
  refine
    { counter_bound := fun p _ => rfl, bettors_none := fun p _ => rfl,
      bets_none := fun p b _ => rfl, in_none := fun p _ => rfl,
      out_none := fun p _ => rfl, dom := ?_, nodup := fun p => List.nodup_nil,
      bet_wf := ?_, total_pool_eq := ?_, total_fees_eq := ?_, p1_eq := ?_,
      p2_eq := ?_, unclaimed := ?_, in_eq := ?_, out_not_refunded := ?_,
      out_refunded := ?_ }
  · intro p b
    simp [initState]
  · intro p b bet hb
    cases hb
  · intro p pool hp
    cases hp
  · intro p pool hp
    cases hp
  · intro p pool hp
    cases hp
  · intro p pool hp
    cases hp
  · intro p pool hp
    cases hp
  · intro p pool hp
    cases hp
  · intro p pool hp
    cases hp
  · intro p pool hp
    cases hp

theorem trace_inv (H : BetSide → Nat → Nat)
    (V : Nat → Nat → List Nat → List Nat → Bool) :
    ∀ (s : State) (inA outA : Nat → Int), Trace H V s inA outA → Inv s inA outA := by
  intro s inA outA ht
  induction ht with
  | init => exact inv_init
  | step s inA outA op hT ih =>
    cases op with
    | createPool m d => exact inv_step_create H V s inA outA m d ih
    | commitBet now pid b c a => exact inv_step_commit H V s inA outA now pid b c a ih
    | lockPool pid => exact inv_step_lock H V s inA outA pid ih
    | revealBet pid b side salt => exact inv_step_reveal H V s inA outA pid b side salt ih
    | settlePool pid w => exact inv_step_settle H V s inA outA pid w ih
    | settlePoolZk pid w vk proof inputs =>
      exact inv_step_settle_zk H V s inA outA pid w vk proof inputs ih
    | claimPayout pid b => exact inv_step_claim H V s inA outA pid b ih
    | refundPool pid => exact inv_step_refund H V s inA outA pid ih
    | sweepTreasury now => exact inv_step_sweep H V s inA outA now ih
    | setZkVerifier v vk => exact inv_step_setzk H V s inA outA v vk ih

end ZkBetting

open ZkBetting in
/-- C3: at every reachable state, every pool's `total_pool` is the sum of
`amount` over all its bet records (the bettors list enumerates exactly the
keys holding a record, without duplicates), and `player1_total` /
`player2_total` are the sums of `amount` over the revealed bets on the
respective side; every operation preserves this, reachability being closed
under all entrypoints. -/
theorem pool_totals_invariant (H : BetSide → Nat → Nat)
    (V : Nat → Nat → List Nat → List Nat → Bool) (s : State)
    (inA outA : Nat → Int) (ht : Trace H V s inA outA) (p : Nat)
    (pool : BetPool) (hp : s.pools p = some pool) :
    (∀ b, (s.bets p b).isSome = true ↔ b ∈ s.poolBettors p)
    ∧ (s.poolBettors p).Nodup
    ∧ pool.total_pool = betsSum s p (fun bet => bet.amount)
    ∧ pool.player1_total
        = betsSum s p (fun bet => if bet.revealed = true ∧ bet.side = SIDE_P1 then bet.amount else 0)
    ∧ pool.player2_total
        = betsSum s p (fun bet => if bet.revealed = true ∧ bet.side = SIDE_P2 then bet.amount else 0) := by
  have hInv := trace_inv H V s inA outA ht
  exact ⟨hInv.dom p, hInv.nodup p, hInv.total_pool_eq p pool hp,
    hInv.p1_eq p pool hp, hInv.p2_eq p pool hp⟩

open ZkBetting in
/-- Witness for C3 on the concrete reachable state `winState`. -/
theorem pool_totals_invariant_witness :
    winState.pools 1 = some winPool
    ∧ ((∀ b, (winState.bets 1 b).isSome = true ↔ b ∈ winState.poolBettors 1)
      ∧ (winState.poolBettors 1).Nodup
      ∧ winPool.total_pool = betsSum winState 1 (fun bet => bet.amount)
      ∧ winPool.player1_total
          = betsSum winState 1 (fun bet => if bet.revealed = true ∧ bet.side = SIDE_P1 then bet.amount else 0)
      ∧ winPool.player2_total
          = betsSum winState 1 (fun bet => if bet.revealed = true ∧ bet.side = SIDE_P2 then bet.amount else 0)) :=
  ⟨by decide,
    pool_totals_invariant H0 V0 winState winIn winOut
      (trace_runOps H0 V0 winOps initState (fun _ => 0) (fun _ => 0) Trace.init)
      1 winPool (by decide)⟩

open ZkBetting in
/-- C2 amended: for every reachable state, the escrow taken in for a pool
(tracked transfer by transfer) equals `total_pool + total_fees` — in
particular at lock time — and `total_fees` never exceeds `total_pool`;
the payouts and refunds transferred out of escrow for that pool are,
however, only bounded by `2 * total_pool` (the fixed 2× house payout is
not funded by that pool's own escrow), not by the escrow taken in. -/
theorem escrow_inflow_eq_totals_outflow_bounded (H : BetSide → Nat → Nat)
    (V : Nat → Nat → List Nat → List Nat → Bool) (s : State)
    (inA outA : Nat → Int) (ht : Trace H V s inA outA) (p : Nat)
    (pool : BetPool) (hp : s.pools p = some pool) :
    inA p = pool.total_pool + pool.total_fees
    ∧ pool.total_fees ≤ pool.total_pool
    ∧ outA p ≤ 2 * pool.total_pool := by
  have hInv := trace_inv H V s inA outA ht
  have hfees : pool.total_fees ≤ pool.total_pool := by
    rw [hInv.total_fees_eq p pool hp, hInv.total_pool_eq p pool hp]
    unfold betsSum
    apply sum_map_le
    intro b _
    unfold betVal
    rcases hb : s.bets p b with _ | bet
    · exact le_refl 0
    · obtain ⟨hmin, hfee⟩ := hInv.bet_wf p b bet hb
      show bet.fee_paid ≤ bet.amount
      rw [hfee]
      refine calc_fee_le_amount bet.amount ?_
      have : (0 : Int) < MIN_BET_STROOPS := by norm_num [MIN_BET_STROOPS]
      omega
  refine ⟨hInv.in_eq p pool hp, hfees, ?_⟩
  by_cases hR : pool.status = .Refunded
  · rw [(hInv.out_refunded p pool hp hR).1]
    omega
  · rw [hInv.out_not_refunded p pool hp hR]
    have hle : betsSum s p (fun bet => if bet.claimed = true then bet.amount else 0)
        ≤ betsSum s p (fun bet => bet.amount) := by
      unfold betsSum
      apply sum_map_le
      intro b _
      unfold betVal
      rcases hb : s.bets p b with _ | bet
      · exact le_refl 0
      · obtain ⟨hmin, -⟩ := hInv.bet_wf p b bet hb
        have hpos : (0 : Int) ≤ bet.amount := by
          have : (0 : Int) < MIN_BET_STROOPS := by norm_num [MIN_BET_STROOPS]
          omega
        show (if bet.claimed = true then bet.amount else 0) ≤ bet.amount
        by_cases hc : bet.claimed = true <;> simp [hc, hpos]
    rw [← hInv.total_pool_eq p pool hp] at hle
    omega

open ZkBetting in
/-- Witness for the amended C2 on the concrete reachable state
`winState`. -/
theorem escrow_inflow_eq_totals_outflow_bounded_witness :
    winState.pools 1 = some winPool
    ∧ (winIn 1 = winPool.total_pool + winPool.total_fees
      ∧ winPool.total_fees ≤ winPool.total_pool
      ∧ winOut 1 ≤ 2 * winPool.total_pool) :=
  ⟨by decide,
    escrow_inflow_eq_totals_outflow_bounded H0 V0 winState winIn winOut
      (trace_runOps H0 V0 winOps initState (fun _ => 0) (fun _ => 0) Trace.init)
      1 winPool (by decide)⟩

namespace ZkBetting

theorem statusStep_refl (a : PoolStatus) : statusStep a a = true := by
  cases a <;> rfl

theorem hostState_of_error (H : BetSide → Nat → Nat)
    (V : Nat → Nat → List Nat → List Nat → Bool) (op : Op) (s : State)
    (he : ∃ e, (rawExec H V op s).1 = .error e) : hostState H V op s = s := by
  obtain ⟨e, he⟩ := he
  simp [hostState, hostExec, hostRun, he]

theorem pools_step_settle (H : BetSide → Nat → Nat)
    (V : Nat → Nat → List Nat → List Nat → Bool) (pid : Nat) (w : BetSide)
    (s : State) (p : Nat) (pool : BetPool) (hp : s.pools p = some pool) :
    ∃ pool2, (hostState H V (.settlePool pid w) s).pools p = some pool2
      ∧ statusStep pool.status pool2.status = true
      ∧ (pool.status = .Settled ∨ pool.status = .Refunded → pool2 = pool) := by
  rcases hpl : s.pools pid with _ | poolT
  · have hse := hostState_of_error H V (.settlePool pid w) s
      ⟨.PoolNotFound, by simp [rawExec, settle_pool, hpl]⟩
    exact ⟨pool, by rw [hse]; exact hp, statusStep_refl _, fun _ => rfl⟩
  · by_cases hterm : poolT.status = .Settled ∨ poolT.status = .Refunded
    · have hse := hostState_of_error H V (.settlePool pid w) s
        ⟨.PoolAlreadySettled, by simp [rawExec, settle_pool, hpl, hterm]⟩
      exact ⟨pool, by rw [hse]; exact hp, statusStep_refl _, fun _ => rfl⟩
    · have hs : hostState H V (.settlePool pid w) s
          = { s.setPool pid { poolT with status := .Settled, winner_side := (match w with | .Player1 => SIDE_P1 | .Player2 => SIDE_P2) } with feeAccrued := s.feeAccrued + poolT.total_fees } := by
        simp only [hostState, hostExec, rawExec, settle_pool, hpl, if_neg hterm, hostRun]
      rw [hs]
      simp only [State.setPool]
      by_cases hpp : p = pid
      · subst hpp
        rw [hp] at hpl
        obtain rfl : pool = poolT := Option.some_injective _ hpl
        refine ⟨_, if_pos rfl, ?_, ?_⟩
        · rw [show ({ pool with status := .Settled, winner_side := (match w with | .Player1 => SIDE_P1 | .Player2 => SIDE_P2) } : BetPool).status = PoolStatus.Settled from rfl]
          rcases hst : pool.status
          · rfl
          · rfl
          · exact absurd (Or.inl hst) hterm
          · exact absurd (Or.inr hst) hterm
        · intro hT
          exact absurd hT hterm
      · exact ⟨pool, by rw [if_neg hpp]; exact hp, statusStep_refl _, fun _ => rfl⟩

theorem pools_step (H : BetSide → Nat → Nat)
    (V : Nat → Nat → List Nat → List Nat → Bool) (op : Op) (s : State)
    (inA outA : Nat → Int) (hInv : Inv s inA outA) (p : Nat) (pool : BetPool)
    (hp : s.pools p = some pool) :
    ∃ pool2, (hostState H V op s).pools p = some pool2
      ∧ statusStep pool.status pool2.status = true
      ∧ (pool.status = .Settled ∨ pool.status = .Refunded → pool2 = pool) := by
  have hkeep : hostState H V op s = s →
      ∃ pool2, (hostState H V op s).pools p = some pool2
        ∧ statusStep pool.status pool2.status = true
        ∧ (pool.status = .Settled ∨ pool.status = .Refunded → pool2 = pool) := by
    intro hse
    exact ⟨pool, by rw [hse]; exact hp, statusStep_refl _, fun _ => rfl⟩
  cases op with
  | createPool m d =>
    have hple : ¬ s.poolCounter < p := by
      intro hlt
      rw [hInv.counter_bound p hlt] at hp
      cases hp
    have hs : hostState H V (.createPool m d) s
        = ((s.setPool (s.poolCounter + 1)
            ⟨s.poolCounter + 1, m, .Open, 0, 0, 0, 0, 0, 0, d, SIDE_NONE⟩).setBettors
            (s.poolCounter + 1) []).setCounter (s.poolCounter + 1) := rfl
    refine ⟨pool, ?_, statusStep_refl _, fun _ => rfl⟩
    rw [hs]
    simp only [setCounter_pools, setBettors_pools, setPool_pools]
    rw [if_neg (by omega)]
    exact hp
  | commitBet now pid b c a =>
    by_cases hamt : a < MIN_BET_STROOPS
    · exact hkeep (hostState_of_error H V _ s ⟨.InvalidAmount, by simp [rawExec, commit_bet, hamt]⟩)
    · rcases hpl : s.pools pid with _ | poolT
      · exact hkeep (hostState_of_error H V _ s ⟨.PoolNotFound, by simp [rawExec, commit_bet, hamt, hpl]⟩)
      · by_cases hO : poolT.status = .Open
        · by_cases hdl : poolT.deadline_ts > 0 ∧ now > poolT.deadline_ts
          · exact hkeep (hostState_of_error H V _ s ⟨.BettingDeadlinePassed, by simp [rawExec, commit_bet, hamt, hpl, hO, hdl]⟩)
          · by_cases hbe : (s.bets pid b).isSome
            · exact hkeep (hostState_of_error H V _ s ⟨.AlreadyCommitted, by simp [rawExec, commit_bet, hamt, hpl, hO, hdl, hbe]⟩)
            · have hbnone : s.bets pid b = none := by
                rcases hsb : s.bets pid b with _ | bb
                · rfl
                · rw [hsb] at hbe
                  simp at hbe
              have hs : hostState H V (.commitBet now pid b c a) s
                  = ((s.setBet pid b ⟨b, c, a, calc_fee a, false, SIDE_NONE, false⟩).setBettors
                      pid (s.poolBettors pid ++ [b])).setPool pid
                      { poolT with total_pool := poolT.total_pool + a, total_fees := poolT.total_fees + calc_fee a, bet_count := poolT.bet_count + 1 } := by
                simp only [hostState, hostExec, rawExec, commit_bet, if_neg hamt, hpl,
                  hO, if_neg hdl, hbnone, hostRun]
                rfl
              rw [hs]
              simp only [setPool_pools, setBettors_pools, setBet_pools]
              by_cases hpp : p = pid
              · subst hpp
                rw [hp] at hpl
                obtain rfl : pool = poolT := Option.some_injective _ hpl
                refine ⟨_, if_pos rfl, ?_, ?_⟩
                · rw [show ({ pool with total_pool := pool.total_pool + a, total_fees := pool.total_fees + calc_fee a, bet_count := pool.bet_count + 1 } : BetPool).status = pool.status from rfl]
                  exact statusStep_refl _
                · rintro (hT | hT) <;> (rw [hO] at hT; cases hT)
              · exact ⟨pool, by rw [if_neg hpp]; exact hp, statusStep_refl _, fun _ => rfl⟩
        · exact hkeep (hostState_of_error H V _ s ⟨.PoolNotOpen, by simp [rawExec, commit_bet, hamt, hpl, hO]⟩)
  | lockPool pid =>
    rcases hpl : s.pools pid with _ | poolT
    · exact hkeep (hostState_of_error H V _ s ⟨.PoolNotFound, by simp [rawExec, lock_pool, hpl]⟩)
    · by_cases hO : poolT.status = .Open
      · have hs : hostState H V (.lockPool pid) s
            = s.setPool pid { poolT with status := .Locked } := by
          simp [hostState, hostExec, rawExec, lock_pool, hpl, hO, hostRun]
        rw [hs]
        simp only [setPool_pools]
        by_cases hpp : p = pid
        · subst hpp
          rw [hp] at hpl
          obtain rfl : pool = poolT := Option.some_injective _ hpl
          refine ⟨_, if_pos rfl, ?_, ?_⟩
          · rw [hO]
            rfl
          · rintro (hT | hT) <;> (rw [hO] at hT; cases hT)
        · exact ⟨pool, by rw [if_neg hpp]; exact hp, statusStep_refl _, fun _ => rfl⟩
      · exact hkeep (hostState_of_error H V _ s ⟨.PoolAlreadyLocked, by simp [rawExec, lock_pool, hpl, hO]⟩)
  | revealBet pid b side salt =>
    rcases hpl : s.pools pid with _ | poolT
    · exact hkeep (hostState_of_error H V _ s ⟨.PoolNotFound, by simp [rawExec, reveal_bet_internal, hpl]⟩)
    · by_cases hL : poolT.status = .Locked
      · rcases hbl : s.bets pid b with _ | bet
        · exact hkeep (hostState_of_error H V _ s ⟨.BetNotFound, by simp [rawExec, reveal_bet_internal, hpl, hL, hbl]⟩)
        · by_cases hrev : bet.revealed
          · exact hkeep (hostState_of_error H V _ s ⟨.AlreadyRevealed, by simp [rawExec, reveal_bet_internal, hpl, hL, hbl, hrev]⟩)
          · by_cases hcm : H side salt = bet.commitment
            · rw [Bool.not_eq_true] at hrev
              rcases side with _ | _
              · have hs : hostState H V (.revealBet pid b .Player1 salt) s
                    = (s.setBet pid b { bet with revealed := true, side := SIDE_P1 }).setPool pid { poolT with player1_total := poolT.player1_total + bet.amount, reveal_count := poolT.reveal_count + 1 } := by
                  simp [hostState, hostExec, rawExec, reveal_bet_internal, hpl, hL, hbl, hrev, hcm, hostRun]
                rw [hs]
                simp only [setPool_pools, setBet_pools]
                by_cases hpp : p = pid
                · subst hpp
                  rw [hp] at hpl
                  obtain rfl : pool = poolT := Option.some_injective _ hpl
                  refine ⟨_, if_pos rfl, ?_, ?_⟩
                  · rw [show ({ pool with player1_total := pool.player1_total + bet.amount, reveal_count := pool.reveal_count + 1 } : BetPool).status = pool.status from rfl]
                    exact statusStep_refl _
                  · rintro (hT | hT) <;> (rw [hL] at hT; cases hT)
                · exact ⟨pool, by rw [if_neg hpp]; exact hp, statusStep_refl _, fun _ => rfl⟩
              · have hs : hostState H V (.revealBet pid b .Player2 salt) s
                    = (s.setBet pid b { bet with revealed := true, side := SIDE_P2 }).setPool pid { poolT with player2_total := poolT.player2_total + bet.amount, reveal_count := poolT.reveal_count + 1 } := by
                  simp [hostState, hostExec, rawExec, reveal_bet_internal, hpl, hL, hbl, hrev, hcm, hostRun]
                rw [hs]
                simp only [setPool_pools, setBet_pools]
                by_cases hpp : p = pid
                · subst hpp
                  rw [hp] at hpl
                  obtain rfl : pool = poolT := Option.some_injective _ hpl
                  refine ⟨_, if_pos rfl, ?_, ?_⟩
                  · rw [show ({ pool with player2_total := pool.player2_total + bet.amount, reveal_count := pool.reveal_count + 1 } : BetPool).status = pool.status from rfl]
                    exact statusStep_refl _
                  · rintro (hT | hT) <;> (rw [hL] at hT; cases hT)
                · exact ⟨pool, by rw [if_neg hpp]; exact hp, statusStep_refl _, fun _ => rfl⟩
            · exact hkeep (hostState_of_error H V _ s ⟨.InvalidReveal, by simp [rawExec, reveal_bet_internal, hpl, hL, hbl, hrev, hcm]⟩)
      · exact hkeep (hostState_of_error H V _ s ⟨.PoolNotLocked, by simp [rawExec, reveal_bet_internal, hpl, hL]⟩)
  | settlePool pid w =>
    exact pools_step_settle H V pid w s p pool hp
  | settlePoolZk pid w vk proof inputs =>
    rcases hv : s.zkVerifier with _ | va
    · exact hkeep (hostState_of_error H V _ s ⟨.ZkVerifierNotConfigured, by simp [rawExec, settle_pool_zk, hv]⟩)
    · rcases hk : s.zkVkId with _ | ck
      · exact hkeep (hostState_of_error H V _ s ⟨.ZkVerifierNotConfigured, by simp [rawExec, settle_pool_zk, hv, hk]⟩)
      · by_cases hvk : vk ≠ ck
        · exact hkeep (hostState_of_error H V _ s ⟨.ZkProofInvalid, by simp [rawExec, settle_pool_zk, hv, hk, hvk]⟩)
        · by_cases hplen : proof.length = 256
          · by_cases hinp : inputs = []
            · have hcond : proof.length ≠ 256 ∨ inputs.length < 1 := by
                right
                simp [hinp]
              exact hkeep (hostState_of_error H V _ s ⟨.ZkProofInvalid, by
                simp only [rawExec, settle_pool_zk, hv, hk, if_neg hvk, if_pos hcond]⟩)
            · have hlen0 : inputs.length ≠ 0 := fun h0 => hinp (List.length_eq_zero.mp h0)
              have hcond : ¬(proof.length ≠ 256 ∨ inputs.length < 1) := by
                rintro (hc | hc)
                · exact hc hplen
                · exact hlen0 (by omega)
              by_cases hV : V va vk proof inputs
              · have hred : rawExec H V (.settlePoolZk pid w vk proof inputs) s
                    = rawExec H V (.settlePool pid w) s := by
                  simp only [rawExec, settle_pool_zk, hv, hk, if_neg hvk, if_neg hcond]
                  simp [hV]
                have h1 : hostState H V (.settlePoolZk pid w vk proof inputs) s
                    = hostState H V (.settlePool pid w) s := by
                  unfold hostState hostExec
                  rw [hred]
                rw [h1]
                exact pools_step_settle H V pid w s p pool hp
              · rw [Bool.not_eq_true] at hV
                exact hkeep (hostState_of_error H V _ s ⟨.ZkProofInvalid, by
                  simp only [rawExec, settle_pool_zk, hv, hk, if_neg hvk, if_neg hcond, hV]
                  simp⟩)
          · have hcond : proof.length ≠ 256 ∨ inputs.length < 1 := Or.inl hplen
            exact hkeep (hostState_of_error H V _ s ⟨.ZkProofInvalid, by
              simp only [rawExec, settle_pool_zk, hv, hk, if_neg hvk, if_pos hcond]⟩)
  | claimPayout pid b =>
    rcases hres : (rawExec H V (.claimPayout pid b) s).1 with e | u
    · exact hkeep (hostState_of_error H V _ s ⟨e, hres⟩)
    · -- success: state is a setBet, pools unchanged
      rcases hpl : s.pools pid with _ | poolT
      · rw [rawExec] at hres
        simp [claim_payout_internal, hpl, Except.map] at hres
      · by_cases hS : poolT.status = .Settled
        · rcases hbl : s.bets pid b with _ | bet
          · rw [rawExec] at hres
            simp [claim_payout_internal, hpl, hS, hbl, Except.map] at hres
          · by_cases hcl : bet.claimed
            · rw [rawExec] at hres
              simp [claim_payout_internal, hpl, hS, hbl, hcl, Except.map] at hres
            · by_cases hw : poolT.winner_side = SIDE_NONE
              · rw [rawExec] at hres
                simp [claim_payout_internal, hpl, hS, hbl, hcl, hw, Except.map] at hres
              · by_cases hrev : bet.revealed
                · by_cases hside : bet.side = poolT.winner_side
                  · by_cases hpay : bet.amount * 2 ≤ 0
                    · rw [rawExec] at hres
                      simp [claim_payout_internal, hpl, hS, hbl, hcl, hw, hrev, hside,
                        hpay, Except.map] at hres
                    · have hs : hostState H V (.claimPayout pid b) s
                          = s.setBet pid b { bet with claimed := true } := by
                        simp [hostState, hostExec, rawExec, claim_payout_internal, hpl,
                          hS, hbl, hcl, hw, hrev, hside, hpay, hostRun, Except.map]
                      rw [hs]
                      exact ⟨pool, hp, statusStep_refl _, fun _ => rfl⟩
                  · rw [rawExec] at hres
                    simp [claim_payout_internal, hpl, hS, hbl, hcl, hw, hrev, hside,
                      Except.map] at hres
                · rw [rawExec] at hres
                  simp [claim_payout_internal, hpl, hS, hbl, hcl, hw, hrev, Except.map] at hres
        · rw [rawExec] at hres
          simp [claim_payout_internal, hpl, hS, Except.map] at hres
  | refundPool pid =>
    rcases hpl : s.pools pid with _ | poolT
    · exact hkeep (hostState_of_error H V _ s ⟨.PoolNotFound, by simp [rawExec, refund_pool, hpl]⟩)
    · by_cases hterm : poolT.status = .Settled ∨ poolT.status = .Refunded
      · exact hkeep (hostState_of_error H V _ s ⟨.PoolAlreadySettled, by simp [rawExec, refund_pool, hpl, hterm]⟩)
      · have hnd := hInv.nodup pid
        have hstatOL : poolT.status = .Open ∨ poolT.status = .Locked := by
          rcases hps : poolT.status
          · exact Or.inl rfl
          · exact Or.inr rfl
          · exact absurd (Or.inl hps) hterm
          · exact absurd (Or.inr hps) hterm
        have hpre : ∀ b ∈ s.poolBettors pid, ∃ bet, s.bets pid b = some bet
            ∧ bet.claimed = false := by
          intro b hbm
          have hsome := (hInv.dom pid b).mpr hbm
          rcases hsb : s.bets pid b with _ | bet
          · rw [hsb] at hsome
            cases hsome
          · exact ⟨bet, rfl, hInv.unclaimed pid poolT hpl hstatOL b bet hsb⟩
        obtain ⟨f1, -, -, -, -, -, -⟩ := refund_fold pid (s.poolBettors pid) s [] hnd hpre
        have hs : hostState H V (.refundPool pid) s
            = ((s.poolBettors pid).foldl (refund_step pid) (s, [])).1.setPool pid
                { poolT with status := .Refunded } := by
          simp only [hostState, hostExec, rawExec, refund_pool, hpl, if_neg hterm, hostRun]
        rw [hs]
        simp only [setPool_pools]
        by_cases hpp : p = pid
        · subst hpp
          rw [hp] at hpl
          obtain rfl : pool = poolT := Option.some_injective _ hpl
          refine ⟨_, if_pos rfl, ?_, ?_⟩
          · rw [show ({ pool with status := .Refunded } : BetPool).status = PoolStatus.Refunded from rfl]
            rcases hst : pool.status
            · rfl
            · rfl
            · exact absurd (Or.inl hst) hterm
            · exact absurd (Or.inr hst) hterm
          · intro hT
            exact absurd hT hterm
        · refine ⟨pool, ?_, statusStep_refl _, fun _ => rfl⟩
          rw [if_neg hpp, f1]
          exact hp
  | sweepTreasury now =>
    by_cases h1 : s.lastSweepTs > 0 ∧ now - s.lastSweepTs < SWEEP_INTERVAL_SECONDS
    · exact hkeep (hostState_of_error H V _ s ⟨.SweepTooEarly, by simp [rawExec, sweep_treasury, h1, Except.map]⟩)
    · by_cases h2 : s.feeAccrued ≤ 0
      · exact hkeep (hostState_of_error H V _ s ⟨.NothingToSweep, by simp [rawExec, sweep_treasury, h1, h2, Except.map]⟩)
      · have hs : hostState H V (.sweepTreasury now) s
            = { s with feeAccrued := 0, lastSweepTs := now } := by
          simp only [hostState, hostExec, rawExec, sweep_treasury, if_neg h1, if_neg h2,
            hostRun, Except.map]
        rw [hs]
        exact ⟨pool, hp, statusStep_refl _, fun _ => rfl⟩
  | setZkVerifier v vk =>
    exact ⟨pool, hp, statusStep_refl _, fun _ => rfl⟩

end ZkBetting

open ZkBetting in
/-- C7 (amended): at every reachable state, every operation moves every
pool's status only forward along `Open → Locked → {Settled, Refunded}` —
never backward, with `Settled` and `Refunded` terminal, and a terminal
pool's record never changed again — and on a terminal pool `commit_bet`,
`lock_pool`, `settle_pool`, `settle_pool_zk` and `refund_pool` all return
errors; however `Settled` and `Refunded` are reachable directly from
`Open`, not only from `Locked`. -/
theorem pool_status_monotone (H : BetSide → Nat → Nat)
    (V : Nat → Nat → List Nat → List Nat → Bool) (s : State)
    (inA outA : Nat → Int) (ht : Trace H V s inA outA) (p : Nat)
    (pool : BetPool) (hp : s.pools p = some pool) :
    (∀ op, ∃ pool2, (hostState H V op s).pools p = some pool2
        ∧ statusStep pool.status pool2.status = true
        ∧ (pool.status = .Settled ∨ pool.status = .Refunded → pool2 = pool))
    ∧ (pool.status = .Settled ∨ pool.status = .Refunded →
        (∀ now b c a, ∃ e, (commit_bet s now p b c a).1 = .error e)
        ∧ (∃ e, (lock_pool s p).1 = .error e)
        ∧ (∀ w, ∃ e, (settle_pool s p w).1 = .error e)
        ∧ (∀ w vk proof inputs, ∃ e, (settle_pool_zk V s p w vk proof inputs).1 = .error e)
        ∧ (∃ e, (refund_pool s p).1 = .error e)) := by
  have hInv := trace_inv H V s inA outA ht
  constructor
  · intro op
    exact pools_step H V op s inA outA hInv p pool hp
  · intro hterm
    have hnotOpen : pool.status ≠ .Open := by
      rcases hterm with h | h <;> (rw [h]; simp)
    refine ⟨?_, ?_, ?_, ?_, ?_⟩
    · intro now b c a
      by_cases hamt : a < MIN_BET_STROOPS
      · exact ⟨.InvalidAmount, by simp [commit_bet, hamt]⟩
      · exact ⟨.PoolNotOpen, by simp [commit_bet, hamt, hp, hnotOpen]⟩
    · exact ⟨.PoolAlreadyLocked, by simp [lock_pool, hp, hnotOpen]⟩
    · intro w
      exact ⟨.PoolAlreadySettled, by simp [settle_pool, hp, hterm]⟩
    · intro w vk proof inputs
      rcases hv : s.zkVerifier with _ | va
      · exact ⟨.ZkVerifierNotConfigured, by simp [settle_pool_zk, hv]⟩
      · rcases hk : s.zkVkId with _ | ck
        · exact ⟨.ZkVerifierNotConfigured, by simp [settle_pool_zk, hv, hk]⟩
        · by_cases h1 : vk ≠ ck
          · exact ⟨.ZkProofInvalid, by simp [settle_pool_zk, hv, hk, h1]⟩
          · by_cases h2 : proof.length ≠ 256 ∨ inputs.length < 1
            · exact ⟨.ZkProofInvalid, by
                simp only [settle_pool_zk, hv, hk, if_neg h1, if_pos h2]⟩
            · by_cases h3 : V va vk proof inputs
              · refine ⟨.PoolAlreadySettled, ?_⟩
                simp only [settle_pool_zk, hv, hk, if_neg h1, if_neg h2]
                rw [if_neg (by simp [h3])]
                simp [settle_pool, hp, hterm]
              · exact ⟨.ZkProofInvalid, by
                  simp only [settle_pool_zk, hv, hk, if_neg h1, if_neg h2]
                  rw [if_pos (by simp [h3])]⟩
    · exact ⟨.PoolAlreadySettled, by simp [refund_pool, hp, hterm]⟩

open ZkBetting in
/-- Witness for C7 at the reachable state `winState`, whose pool `1` is
`Settled`: the status cannot step again and the mutating entrypoints all
return errors. -/
theorem pool_status_monotone_witness :
    winState.pools 1 = some winPool
    ∧ ((∃ pool2, (hostState H0 V0 (.lockPool 1) winState).pools 1 = some pool2
          ∧ statusStep winPool.status pool2.status = true
          ∧ (winPool.status = .Settled ∨ winPool.status = .Refunded → pool2 = winPool))
      ∧ (∃ e, (lock_pool winState 1).1 = .error e)
      ∧ (∃ e, (settle_pool winState 1 .Player1).1 = .error e)
      ∧ (∃ e, (refund_pool winState 1).1 = .error e)) := by
  have h := pool_status_monotone H0 V0 winState winIn winOut
    (trace_runOps H0 V0 winOps initState (fun _ => 0) (fun _ => 0) Trace.init)
    1 winPool (by decide)
  have hterm : winPool.status = .Settled ∨ winPool.status = .Refunded := Or.inl rfl
  exact ⟨by decide, h.1 (.lockPool 1), (h.2 hterm).2.1,
    (h.2 hterm).2.2.1 .Player1, (h.2 hterm).2.2.2.2⟩
